import Mathlib

/-!
# Download manager: store, worker pass, download operation, resume, queue

A shallow embedding of `models.go`, `store.go` and `downloader.go`.

* Go values are Lean values; a Go `error` result is an `Option String` holding
  the error's message (`none` is the nil error).
* A Go panic is the `Except.error` branch of an `Except String _` result.
* What the operating system, the network and the clock answer is not computed:
  every call into them takes its answer from an explicit outcome argument, so a
  theorem quantified over the outcome arguments covers every behaviour of the
  environment.
-/

namespace GoDownloader

/-! ## models.go -/

/-- The Go type `FileStatusState` is a string type: any string is a value of it. -/
abbrev FileStatusState := String

/-- Constant `Pending`. -/
abbrev Pending : FileStatusState := "pending"
/-- Constant `InProgress`. -/
abbrev InProgress : FileStatusState := "in_progress"
/-- Constant `Done`. -/
abbrev Done : FileStatusState := "done"
/-- Constant `Failed`. -/
abbrev Failed : FileStatusState := "failed"

/-- State of one URL of a task. `Size` is an `int64`. -/
structure FileStatus where
  URL : String
  FileName : String
  State : FileStatusState
  Error : String
  Size : Int
deriving DecidableEq, Repr

/-- A user task. `CreatedAt` is an instant, kept as an abstract number. -/
structure Task where
  ID : String
  Name : String
  CreatedAt : Int
  Files : List FileStatus
deriving DecidableEq, Repr

/-- The zero value of `Task`, which a map read of an absent key yields. -/
def Task.zero : Task := { ID := "", Name := "", CreatedAt := 0, Files := [] }

/-! ## Go maps `map[string]Task` -/

/-- Entries of an allocated map. -/
abbrev Table := List (String × Task)

/-- Map read `m[k]` on an allocated map. -/
def mapLookup : Table → String → Option Task
  | [], _ => none
  | (k0, v0) :: rest, k => if k0 = k then some v0 else mapLookup rest k

/-- Map write `m[k] = v` on an allocated map. -/
def mapAssign : Table → String → Task → Table
  | [], k, v => [(k, v)]
  | (k0, v0) :: rest, k, v => if k0 = k then (k, v) :: rest else (k0, v0) :: mapAssign rest k v

/-! ## store.go -/

/-- What a file at the snapshot path (or its `.tmp` sibling) holds, classified by what
`json.Unmarshal` into a `map[string]Task` does with it: it rejects the bytes with an
error, or the bytes are the JSON value `null`, or they are a JSON object of tasks. -/
inductive Content where
  | invalid (parseErr : String)
  | null
  | object (m : Table)
deriving DecidableEq, Repr

/-- The store. `Tasks = none` is the nil map. `tmpFile` and `snapFile` are the files
`Path + ".tmp"` and `Path` (`none`: the file does not exist). `saveCalls` counts the
calls of `save` made on this store; it is bookkeeping that the Go value does not hold. -/
structure Store where
  Path : String
  Tasks : Option Table
  tmpFile : Option Content
  snapFile : Option Content
  saveCalls : Nat
deriving DecidableEq, Repr

/-- Result of `json.MarshalIndent(s.Tasks, ...)`: a nil map is written as `null`. -/
def marshal : Option Table → Content
  | none => Content.null
  | some m => Content.object m

/-- Result of `json.Unmarshal(b, &tasks)` with `tasks` a nil map variable: an error, or
the new value of `tasks` (`null` leaves it nil). -/
def unmarshal : Content → Except String (Option Table)
  | Content.invalid e => Except.error e
  | Content.null => Except.ok none
  | Content.object m => Except.ok (some m)

/-- Outcome of `os.ReadFile(s.Path)`. -/
inductive ReadOutcome where
  | notExist (msg : String)
  | failed (msg : String)
  | data (c : Content)
deriving DecidableEq, Repr

/-- The error `load` returns: its message and whether `errors.Is(err, os.ErrNotExist)`. -/
structure LoadError where
  msg : String
  isNotExist : Bool
deriving DecidableEq, Repr

/-- Method `Store.load`. -/
def Store.load (s : Store) (r : ReadOutcome) : Store × Option LoadError :=
  match r with
  | ReadOutcome.notExist msg => (s, some { msg := msg, isNotExist := true })
  | ReadOutcome.failed msg => (s, some { msg := msg, isNotExist := false })
  | ReadOutcome.data c =>
    match unmarshal c with
    | Except.error e => ({ s with snapFile := some c }, some { msg := e, isNotExist := false })
    | Except.ok tasks => ({ s with snapFile := some c, Tasks := tasks }, none)

/-- Function `NewStore`: the returned pointer (`none` is nil) and error. -/
def NewStore (path : String) (r : ReadOutcome) : Option Store × Option String :=
  let s : Store :=
    { Path := path, Tasks := some [], tmpFile := none, snapFile := none, saveCalls := 0 }
  match s.load r with
  | (s1, some err) => if err.isNotExist then (some s1, none) else (none, some err.msg)
  | (s1, none) => (some s1, none)

/-- Outcome of the three fallible steps of `save`. A failed `os.WriteFile` leaves the
temporary file in the state `left`. -/
inductive SaveOutcome where
  | ok
  | marshalErr (msg : String)
  | writeErr (msg : String) (left : Option Content)
  | renameErr (msg : String)
deriving DecidableEq, Repr

/-- The error a `save` with this outcome returns. -/
def SaveOutcome.err : SaveOutcome → Option String
  | SaveOutcome.ok => none
  | SaveOutcome.marshalErr msg => some msg
  | SaveOutcome.writeErr msg _ => some msg
  | SaveOutcome.renameErr msg => some msg

/-- Method `Store.save`. -/
def Store.save (s : Store) (o : SaveOutcome) : Store × Option String :=
  let s := { s with saveCalls := s.saveCalls + 1 }
  match o with
  | SaveOutcome.marshalErr msg => (s, some msg)
  | SaveOutcome.writeErr msg left => ({ s with tmpFile := left }, some msg)
  | SaveOutcome.renameErr msg => ({ s with tmpFile := some (marshal s.Tasks) }, some msg)
  | SaveOutcome.ok => ({ s with tmpFile := none, snapFile := some (marshal s.Tasks) }, none)

/-- Statement `s.Tasks[t.ID] = t`: a write to a nil map panics. -/
def Store.assign (s : Store) (t : Task) : Except String Store :=
  match s.Tasks with
  | none => Except.error "assignment to entry in nil map"
  | some m => Except.ok { s with Tasks := some (mapAssign m t.ID t) }

/-- Method `Store.AddTask`. -/
def Store.AddTask (s : Store) (t : Task) (o : SaveOutcome) : Except String (Store × Option String) :=
  match s.assign t with
  | Except.error p => Except.error p
  | Except.ok s1 => Except.ok (s1.save o)

/-- Method `Store.UpdateTask`. -/
def Store.UpdateTask (s : Store) (t : Task) (o : SaveOutcome) : Except String (Store × Option String) :=
  match s.assign t with
  | Except.error p => Except.error p
  | Except.ok s1 => Except.ok (s1.save o)

/-- Method `Store.GetTask`: a read of a nil map finds nothing. -/
def Store.GetTask (s : Store) (id : String) : Task × Bool :=
  match s.Tasks with
  | none => (Task.zero, false)
  | some m =>
    match mapLookup m id with
    | some t => (t, true)
    | none => (Task.zero, false)

/-- Method `Store.ListTasks`. Go leaves the iteration order of a map unspecified: `order`
is the order the runtime picks for this call. -/
def Store.ListTasks (s : Store) (order : List Task → List Task) : List Task :=
  match s.Tasks with
  | none => []
  | some m => order (m.map Prod.snd)

/-! ## downloader.go: the download operation -/

/-- Library function `filepath.Base` with `/` as the separator: the empty path gives ".",
trailing slashes are dropped, the text after the last remaining slash is returned, and a
path of slashes only gives "/". -/
def Base (path : String) : String :=
  if path = "" then "."
  else
    let stripped := path.toList.reverse.dropWhile (fun c => c = '/')
    let last := (stripped.takeWhile (fun c => c ≠ '/')).reverse
    if last = [] then "/" else String.mk last

/-- The name chosen at the head of `downloadFile`; `now` is `time.Now().Unix()`. -/
def fileNameFor (url : String) (now : Int) : String :=
  let filename := Base url
  if filename = "" ∨ filename = "." ∨ filename = "/" then "file_" ++ toString now else filename

/-- What the environment answers to the steps of one call of `downloadFile`, in the order
of the calls: `os.MkdirAll`, `time.Now().Unix()`, `http.NewRequestWithContext`,
`httpClient.Do`, the response status, `os.Create`, `io.Copy` (bytes written and error),
`os.Rename`. -/
structure DownloadEnv where
  mkdirErr : Option String
  now : Int
  reqErr : Option String
  doErr : Option String
  statusCode : Int
  status : String
  createErr : Option String
  copied : Nat
  copyErr : Option String
  renameErr : Option String
deriving DecidableEq, Repr

/-- Method `Manager.downloadFile`: the file record as the call leaves it, and the returned
error. The directory and the two paths only feed the file-system calls, whose answers
come from `e`. -/
def downloadFile (e : DownloadEnv) (_taskID : String) (f : FileStatus) : FileStatus × Option String :=
  match e.mkdirErr with
  | some err => (f, some err)
  | none =>
    let f := { f with FileName := fileNameFor f.URL e.now }
    match e.reqErr with
    | some err => (f, some err)
    | none =>
      match e.doErr with
      | some err => (f, some err)
      | none =>
        if e.statusCode < 200 ∨ e.statusCode ≥ 300 then (f, some ("bad status: " ++ e.status))
        else
          match e.createErr with
          | some err => (f, some err)
          | none =>
            match e.copyErr with
            | some err => (f, some err)
            | none =>
              let f := { f with Size := (e.copied : Int) }
              match e.renameErr with
              | some err => (f, some err)
              | none => (f, none)

/-! ## downloader.go: the worker -/

/-- What the environment answers while the worker handles one file: the outcome of the
save inside the `UpdateTask` that persists the in-progress mark, the answers to the
download, and the outcome of the save inside the `UpdateTask` that records the result. -/
structure FileEnv where
  mark : SaveOutcome
  dl : DownloadEnv
  record : SaveOutcome
deriving DecidableEq, Repr

/-- The answers for every file of a task, by position in `Files`. -/
abbrev WorkerEnv := Nat → FileEnv

/-- What a worker pass does, in order. `visit i` marks the start of the loop iteration for
index `i`; `updateTask t` is a call `m.store.UpdateTask(t)`; `download id i` is a call
`m.downloadFile(ctx, id, &t.Files[i])`. -/
inductive Event where
  | visit (i : Nat)
  | updateTask (t : Task)
  | download (taskID : String) (i : Nat)
deriving DecidableEq, Repr

/-- The slice `t.Files` of the worker's copy shares its array with the table entry the copy
was read from, so a write through `&t.Files[i]` shows in that entry. -/
def Store.shareFiles (s : Store) (key : String) (files : List FileStatus) : Store :=
  { s with Tasks := s.Tasks.map (fun m =>
      m.map (fun kv => if kv.1 = key then (kv.1, { kv.2 with Files := files }) else kv)) }

/-- Write `f` through the pointer `&t.Files[i]`. -/
def Task.setFile (t : Task) (i : Nat) (f : FileStatus) : Task :=
  { t with Files := t.Files.set i f }

/-- State of the worker inside the loop over the files of one task. -/
structure Pass where
  store : Store
  task : Task
  events : List Event
deriving DecidableEq, Repr

/-- A call `m.store.UpdateTask(t)` made by the worker holding the task read under `key`. -/
def Pass.update (p : Pass) (key : String) (o : SaveOutcome) : Except String (Pass × Option String) :=
  match (p.store.shareFiles key p.task.Files).UpdateTask p.task o with
  | Except.error e => Except.error e
  | Except.ok (s, err) =>
    Except.ok ({ p with store := s, events := p.events ++ [Event.updateTask p.task] }, err)

/-- Body of the loop `for i := range t.Files` in `Manager.worker`. -/
def workerFile (o : FileEnv) (key : String) (i : Nat) (p : Pass) : Except String Pass :=
  let p := { p with events := p.events ++ [Event.visit i] }
  match p.task.Files[i]? with
  | none => Except.error "index out of range"
  | some f =>
    if f.State = Done then Except.ok p
    else
      let f := { f with State := InProgress, Error := "" }
      let p := { p with task := p.task.setFile i f }
      match p.update key o.mark with
      | Except.error e => Except.error e
      | Except.ok (p, some err) =>
        let f := { f with State := Failed, Error := err }
        let p := { p with task := p.task.setFile i f }
        match p.update key o.record with
        | Except.error e => Except.error e
        | Except.ok (p, _) => Except.ok p
      | Except.ok (p, none) =>
        let p := { p with events := p.events ++ [Event.download p.task.ID i] }
        match downloadFile o.dl p.task.ID f with
        | (f, some err) =>
          let f := { f with State := Failed, Error := err }
          let p := { p with task := p.task.setFile i f }
          match p.update key o.record with
          | Except.error e => Except.error e
          | Except.ok (p, _) => Except.ok p
        | (f, none) =>
          let f := { f with State := Done }
          let p := { p with task := p.task.setFile i f }
          match p.update key o.record with
          | Except.error e => Except.error e
          | Except.ok (p, _) => Except.ok p

/-- The loop `for i := range t.Files`: `n` iterations starting at index `i`. -/
def workerFiles (env : WorkerEnv) (key : String) : Nat → Nat → Pass → Except String Pass
  | 0, _, p => Except.ok p
  | n + 1, i, p =>
    match workerFile (env i) key i p with
    | Except.error e => Except.error e
    | Except.ok p1 => workerFiles env key n (i + 1) p1

/-- Body of the loop `for taskID := range m.queue` in `Manager.worker`: what the worker
does with one identifier it took from the queue. -/
def workerTask (env : WorkerEnv) (s : Store) (taskID : String) : Except String Pass :=
  match s.GetTask taskID with
  | (t, false) => Except.ok { store := s, task := t, events := [] }
  | (t, true) => workerFiles env taskID t.Files.length 0 { store := s, task := t, events := [] }

/-- Method `Manager.worker`: the worker takes the identifiers `ids` from the channel one
after the other until the channel is closed and empty; `envs k` holds the answers of the
environment during the pass over the `k`-th of them. The result is the store and what the
passes did, in order. -/
def worker (envs : Nat → WorkerEnv) : List String → Nat → Store → List Event →
    Except String (Store × List Event)
  | [], _, s, ev => Except.ok (s, ev)
  | taskID :: rest, k, s, ev =>
    match workerTask (envs k) s taskID with
    | Except.error e => Except.error e
    | Except.ok p => worker envs rest (k + 1) p.store (ev ++ p.events)

/-! ## downloader.go: the resume pass -/

/-- Method `Manager.ResumePending`, inner loop: is there a file whose state is not `Done`. -/
def needLoop : List FileStatus → Bool
  | [] => false
  | f :: rest => if f.State ≠ Done then true else needLoop rest

/-- The scheduler as far as `ResumePending` sees it: the store and the identifiers sent on
the channel `queue` so far, oldest first. -/
structure Manager where
  store : Store
  enqueued : List String
deriving DecidableEq, Repr

/-- Method `Manager.Enqueue`. Both arms of its `select` send `taskID` on the channel, the
second one after waiting for room; the sends are recorded in order. The waiting itself, and
who receives what, is the matter of `Pool.step`. -/
def Manager.Enqueue (m : Manager) (taskID : String) : Manager :=
  { m with enqueued := m.enqueued ++ [taskID] }

/-- Method `Manager.ResumePending`, outer loop over the listed tasks. -/
def resumeLoop : List Task → Manager → Manager
  | [], m => m
  | t :: rest, m => resumeLoop rest (if needLoop t.Files then m.Enqueue t.ID else m)

/-- Method `Manager.ResumePending`. -/
def Manager.ResumePending (m : Manager) (order : List Task → List Task) : Manager :=
  resumeLoop (m.store.ListTasks order) m


/-! ## downloader.go: the queue and the workers -/

/-- Capacity of the channel `queue` made in `NewManager`. -/
def queueCap : Nat := 100

/-- The channel and the workers started by `Start`: the buffered identifiers, oldest
first, and for each worker the identifier it took and has not finished with. -/
structure Pool where
  workers : Nat
  queue : List String
  current : Nat → Option String

/-- One move of the pool: `Enqueue(taskID)` completes, worker `w` takes the next
identifier from the channel, worker `w` ends its pass and returns to the channel. -/
inductive PoolStep where
  | enqueue (taskID : String)
  | dequeue (w : Nat)
  | finish (w : Nat)
deriving DecidableEq, Repr

/-- The pool after `Start` with `workers` workers. -/
def Pool.init (workers : Nat) : Pool :=
  { workers := workers, queue := [], current := fun _ => none }

/-- The pool after a move; `none` when the move cannot happen now: a send on a full
channel and a receive on an empty one block. -/
def Pool.step (p : Pool) : PoolStep → Option Pool
  | PoolStep.enqueue taskID =>
    if p.queue.length < queueCap then some { p with queue := p.queue ++ [taskID] } else none
  | PoolStep.dequeue w =>
    if w < p.workers ∧ p.current w = none then
      match p.queue with
      | [] => none
      | taskID :: rest =>
        some { p with queue := rest, current := Function.update p.current w (some taskID) }
    else none
  | PoolStep.finish w =>
    if w < p.workers ∧ (p.current w).isSome then
      some { p with current := Function.update p.current w none }
    else none

/-- The pool after a sequence of moves, each of which can happen when its turn comes. -/
def Pool.run (p : Pool) : List PoolStep → Option Pool
  | [] => some p
  | a :: rest =>
    match p.step a with
    | none => none
    | some p1 => p1.run rest

/-- Is `taskID` in the channel or in the hands of a worker. -/
def Pool.holds (p : Pool) (taskID : String) : Bool :=
  p.queue.contains taskID || (List.range p.workers).any (fun w => p.current w == some taskID)

/-- No identifier is enqueued while an earlier enqueue of it is still in the channel or
being processed. -/
def Pool.freshEnqueues (p : Pool) : List PoolStep → Bool
  | [] => true
  | a :: rest =>
    (match a with
      | PoolStep.enqueue taskID => !(p.holds taskID)
      | _ => true) &&
    (match p.step a with
      | none => true
      | some p1 => p1.freshEnqueues rest)

/-- No two workers hold the same task identifier. -/
def Pool.Exclusive (p : Pool) : Prop :=
  ∀ w1 w2 taskID, w1 < p.workers → w2 < p.workers → w1 ≠ w2 →
    p.current w1 = some taskID → p.current w2 ≠ some taskID

/-! ## store.go: calls of several goroutines interleaved -/

/-- What a goroutine does to the store: a call `AddTask(t)` or `UpdateTask(t)` (the two
have the same body) with the outcome its `save` will meet, a call `GetTask(id)`, a call
`ListTasks()`, a call of `save` on its own (as `main` makes at shutdown), or a write of a
worker through `&t.Files[i]`, where `t` is the copy it read under `key` and `files` is the
content of the shared array after the write. The worker takes no lock for such a write. -/
inductive Call where
  | put (t : Task) (o : SaveOutcome)
  | get (id : String)
  | list
  | save (o : SaveOutcome)
  | write (key : String) (files : List FileStatus)
deriving DecidableEq, Repr

/-- Where a goroutine stands in its call. For `put`: `start` (before `s.mu.Lock()` in
`AddTask`), `locked` (lock taken), `assigned` (`s.Tasks[t.ID] = t` done), `released`
(`s.mu.Unlock()` done, `save` not yet entered), `saving` (lock taken in `save`),
`marshalled`, `written` (`os.WriteFile` done), `renamed` (`os.Rename` done), `failing`
(a step of `save` returned an error, the deferred unlock is still to run), `returned`.
For `save`: `start`, then as `put` from `saving` on.
For `get` and `list`: `start`, `locked`, `fetched` (the read is done), `returned`.
For `write`: `start`, `returned`.
`panicked`: the map write panicked; the lock it took is never released. -/
inductive Pc where
  | start | locked | assigned | released | saving | marshalled | written | renamed
  | failing | fetched | returned | panicked
deriving DecidableEq, Repr

/-- Does a goroutine at this point hold the lock. -/
def Pc.inside : Pc → Bool
  | Pc.locked | Pc.assigned | Pc.saving | Pc.marshalled | Pc.written | Pc.renamed
  | Pc.failing | Pc.fetched | Pc.panicked => true
  | _ => false

/-- A goroutine: its call, where it stands, the local `b` of `save`, the result of a
`GetTask`, the result of a `ListTasks` (in table order), and two records kept for the
statements below: the table as the goroutine's own map write left it, and the content its
rename put under the snapshot path. -/
structure Thread where
  call : Call
  pc : Pc
  buf : Option Content
  got : Option (Task × Bool)
  listed : Option (List Task)
  tableAfterAssign : Option (Option Table)
  renamedContent : Option Content
deriving DecidableEq, Repr

/-- A goroutine about to make `call`. -/
def Thread.new (call : Call) : Thread :=
  { call := call, pc := Pc.start, buf := none, got := none, listed := none,
    tableAfterAssign := none, renamedContent := none }

/-- The next statement of a goroutine: `s.mu.Lock()`, `s.mu.Unlock()`, another statement
of a method of the store (`run`), or a write of a worker through a shared `Files` array
(`free`), given with the goroutine after it and, for the last two kinds, the store after
it; `stuck` when the goroutine has returned or panicked. -/
inductive Move where
  | lock (th : Thread)
  | unlock (th : Thread)
  | run (th : Thread) (store : Store)
  | free (th : Thread) (store : Store)
  | stuck
deriving DecidableEq, Repr

/-- The next statement of a goroutine that is inside `save` with outcome `o`, after the
lock was taken. `json.MarshalIndent` is taken as one statement. -/
def Thread.saveMove (th : Thread) (o : SaveOutcome) (store : Store) : Move :=
  match th.pc with
  | Pc.saving =>
    match o with
    | SaveOutcome.marshalErr _ =>
      Move.run { th with pc := Pc.failing } { store with saveCalls := store.saveCalls + 1 }
    | _ =>
      Move.run { th with pc := Pc.marshalled, buf := some (marshal store.Tasks) }
        { store with saveCalls := store.saveCalls + 1 }
  | Pc.marshalled =>
    match o with
    | SaveOutcome.writeErr _ left =>
      Move.run { th with pc := Pc.failing } { store with tmpFile := left }
    | _ => Move.run { th with pc := Pc.written } { store with tmpFile := th.buf }
  | Pc.written =>
    match o with
    | SaveOutcome.renameErr _ => Move.run { th with pc := Pc.failing } store
    | _ =>
      Move.run { th with pc := Pc.renamed, renamedContent := store.tmpFile }
        { store with snapFile := store.tmpFile, tmpFile := none }
  | Pc.renamed => Move.unlock { th with pc := Pc.returned }
  | Pc.failing => Move.unlock { th with pc := Pc.returned }
  | _ => Move.stuck

/-- The next statement of `th`, read off `AddTask`/`UpdateTask`, `save`, `GetTask`,
`ListTasks` and the assignments to `f.State`, `f.Error`, `f.FileName` and `f.Size` in
`worker` and `downloadFile`. -/
def Thread.move (th : Thread) (store : Store) : Move :=
  match th.call, th.pc with
  | Call.write key files, Pc.start =>
    Move.free { th with pc := Pc.returned } (store.shareFiles key files)
  | Call.write _ _, _ => Move.stuck
  | Call.save _, Pc.start => Move.lock { th with pc := Pc.saving }
  | Call.save o, _ => th.saveMove o store
  | Call.get _, Pc.start => Move.lock { th with pc := Pc.locked }
  | Call.get id, Pc.locked =>
    Move.run { th with pc := Pc.fetched, got := some (store.GetTask id) } store
  | Call.get _, Pc.fetched => Move.unlock { th with pc := Pc.returned }
  | Call.get _, _ => Move.stuck
  | Call.list, Pc.start => Move.lock { th with pc := Pc.locked }
  | Call.list, Pc.locked =>
    Move.run { th with pc := Pc.fetched, listed := some (store.ListTasks (fun l => l)) } store
  | Call.list, Pc.fetched => Move.unlock { th with pc := Pc.returned }
  | Call.list, _ => Move.stuck
  | Call.put _ _, Pc.start => Move.lock { th with pc := Pc.locked }
  | Call.put t _, Pc.locked =>
    match store.assign t with
    | Except.error _ => Move.run { th with pc := Pc.panicked } store
    | Except.ok s1 =>
      Move.run { th with pc := Pc.assigned, tableAfterAssign := some s1.Tasks } s1
  | Call.put _ _, Pc.assigned => Move.unlock { th with pc := Pc.released }
  | Call.put _ _, Pc.released => Move.lock { th with pc := Pc.saving }
  | Call.put _ o, _ => th.saveMove o store

/-- The store, its mutex `mu` (`holder` is the goroutine that locked it) and the
goroutines. -/
structure Sys where
  store : Store
  holder : Option Nat
  threads : Nat → Thread

/-- The system in which nobody holds the lock and goroutine `i` is about to make
`calls i`. -/
def Sys.init (store : Store) (calls : Nat → Call) : Sys :=
  { store := store, holder := none, threads := fun i => Thread.new (calls i) }

/-- Goroutine `tid` runs its next statement; `none` when it cannot run: it waits for the
lock, or it has returned or panicked. -/
def Sys.step (σ : Sys) (tid : Nat) : Option Sys :=
  match (σ.threads tid).move σ.store with
  | Move.lock th =>
    if σ.holder = none then
      some { σ with holder := some tid, threads := Function.update σ.threads tid th }
    else none
  | Move.unlock th =>
    some { σ with holder := none, threads := Function.update σ.threads tid th }
  | Move.run th store =>
    some { σ with store := store, threads := Function.update σ.threads tid th }
  | Move.free th store =>
    some { σ with store := store, threads := Function.update σ.threads tid th }
  | Move.stuck => none

/-- The system after the goroutines named in the schedule ran one statement each, in that
order; a goroutine that cannot run when its turn comes is passed over. -/
def Sys.run (σ : Sys) : List Nat → Sys
  | [] => σ
  | tid :: rest =>
    match σ.step tid with
    | none => σ.run rest
    | some σ1 => σ1.run rest

/-- What holds of every state the system reaches: a goroutine at a point where it holds
the lock is the recorded holder; after the temporary file was written in a `save` it holds
the bytes that `save` marshalled; after the rename the snapshot file holds them, and they
are what the call renamed into place. -/
structure Sys.Serialized (σ : Sys) : Prop where
  holderInside : ∀ tid, (σ.threads tid).pc.inside = true → σ.holder = some tid
  writtenTmp : ∀ tid, (σ.threads tid).pc = Pc.written →
    σ.store.tmpFile = (σ.threads tid).buf
  renamedSnap : ∀ tid, (σ.threads tid).pc = Pc.renamed →
    σ.store.snapFile = (σ.threads tid).buf ∧
      (σ.threads tid).renamedContent = (σ.threads tid).buf

/-! ## Reading a pass -/

/-- The index of a `visit` event. -/
def Event.visitIndex : Event → Option Nat
  | Event.visit i => some i
  | _ => none

/-- The index of a `download` event. -/
def Event.downloadIndex : Event → Option Nat
  | Event.download _ i => some i
  | _ => none

/-- Is the event a call of `UpdateTask`. -/
def Event.isUpdate : Event → Bool
  | Event.updateTask _ => true
  | _ => false

/-- The record the loop body leaves for a file `f` it meets, read off the three exits of
the body: skipped, failed to persist the mark, downloaded with or without error. -/
def fileAfter (o : FileEnv) (taskID : String) (f : FileStatus) : FileStatus :=
  if f.State = Done then f
  else
    match o.mark.err with
    | some err => { f with State := Failed, Error := err }
    | none =>
      match downloadFile o.dl taskID { f with State := InProgress, Error := "" } with
      | (g, some err) => { g with State := Failed, Error := err }
      | (g, none) => { g with State := Done }

/-- Does the loop body call `downloadFile` for a file `f` it meets. -/
def attempted (o : FileEnv) (f : FileStatus) : Bool :=
  decide (f.State ≠ Done) && o.mark.err.isNone

/-! ## Sample values -/

/-- Answers of a download in which every step succeeds and five bytes arrive. -/
def sampleDownloadOk : DownloadEnv :=
  { mkdirErr := none, now := 1700000000, reqErr := none, doErr := none, statusCode := 200,
    status := "200 OK", createErr := none, copied := 5, copyErr := none, renameErr := none }

/-- Answers of a download whose response is a 404. -/
def sampleDownload404 : DownloadEnv :=
  { sampleDownloadOk with statusCode := 404, status := "404 Not Found" }

/-- Answers of a download in which only the final rename fails. -/
def sampleDownloadRenameFails : DownloadEnv :=
  { sampleDownloadOk with renameErr := some "rename data/a/x.bin.part data/a/x.bin: permission denied" }

/-- A task of two pending files. -/
def sampleTask : Task :=
  { ID := "a", Name := "", CreatedAt := 0, Files := [
      { URL := "http://h/x.bin", FileName := "", State := Pending, Error := "", Size := 0 },
      { URL := "http://h/missing", FileName := "", State := Pending, Error := "", Size := 0 }] }

/-- A task of one pending file. -/
def sampleSingle : Task :=
  { ID := "a", Name := "", CreatedAt := 0, Files := [
      { URL := "http://h/x.bin", FileName := "", State := Pending, Error := "", Size := 0 }] }

/-- A task whose two files are done. -/
def sampleDoneTask : Task :=
  { ID := "d", Name := "", CreatedAt := 0, Files := [
      { URL := "http://h/x.bin", FileName := "x.bin", State := Done, Error := "", Size := 5 },
      { URL := "http://h/y.bin", FileName := "y.bin", State := Done, Error := "", Size := 7 }] }

/-- A store holding the given tasks under their identifiers, nothing on disk yet. -/
def sampleStore (tasks : List Task) : Store :=
  { Path := "tasks.json", Tasks := some (tasks.map (fun t => (t.ID, t))), tmpFile := none,
    snapFile := none, saveCalls := 0 }

/-- Every save succeeds, the first download succeeds and the others meet a 404. -/
def sampleEnv : WorkerEnv := fun i =>
  if i = 0 then { mark := SaveOutcome.ok, dl := sampleDownloadOk, record := SaveOutcome.ok }
  else { mark := SaveOutcome.ok, dl := sampleDownload404, record := SaveOutcome.ok }

/-- Every save succeeds and every download fails at the final rename. -/
def sampleEnvRenameFails : WorkerEnv := fun _ =>
  { mark := SaveOutcome.ok, dl := sampleDownloadRenameFails, record := SaveOutcome.ok }

/-- What holds of the pool as long as enqueues are fresh: workers beyond the count hold
nothing, the channel has no identifier twice, no worker holds an identifier that is also in
the channel, and no two workers hold the same identifier. -/
structure Pool.Separated (p : Pool) : Prop where
  idle : ∀ w, p.workers ≤ w → p.current w = none
  queueNodup : p.queue.Nodup
  notQueued : ∀ w taskID, p.current w = some taskID → taskID ∉ p.queue
  apart : ∀ w1 w2 taskID, w1 ≠ w2 → p.current w1 = some taskID → p.current w2 ≠ some taskID

/-- Two goroutines: number 0 adds the sample task, every other one adds the finished task;
all their saves succeed. -/
def sampleCalls : Nat → Call := fun i =>
  if i = 0 then Call.put sampleTask SaveOutcome.ok else Call.put sampleDoneTask SaveOutcome.ok

/-- The system of `sampleCalls` over an empty store. -/
def sampleSys : Sys := Sys.init (sampleStore []) sampleCalls

/-- Goroutine 0 adds the sample task; every other goroutine is a worker that, holding a
copy of the task stored under "a", writes the files of the finished task through the
shared array. -/
def sampleCallsWithWorker : Nat → Call := fun i =>
  if i = 0 then Call.put sampleTask SaveOutcome.ok else Call.write "a" sampleDoneTask.Files

/-- The system of `sampleCallsWithWorker` over an empty store. -/
def sampleSysWithWorker : Sys := Sys.init (sampleStore []) sampleCallsWithWorker

/-- A table that `NewStore` accepts from a snapshot whose two entries bear the same `id`. -/
def sampleTwinTable : Table := [("k1", sampleTask), ("k2", sampleSingle)]

/-! ## Go maps -/

theorem mapLookup_mapAssign_self (m : Table) (k : String) (v : Task) :
    mapLookup (mapAssign m k v) k = some v := by
  induction m with
  | nil => simp [mapAssign, mapLookup]
  | cons kv rest ih =>
    obtain ⟨k0, v0⟩ := kv
    by_cases h : k0 = k
    · simp [mapAssign, mapLookup, h]
    · simp [mapAssign, mapLookup, h, ih]

theorem mapLookup_mapAssign_ne (m : Table) (k k1 : String) (v : Task) (h : k1 ≠ k) :
    mapLookup (mapAssign m k v) k1 = mapLookup m k1 := by
  induction m with
  | nil => simp [mapAssign, mapLookup, Ne.symm h]
  | cons kv rest ih =>
    obtain ⟨k0, v0⟩ := kv
    by_cases h0 : k0 = k
    · subst h0
      simp [mapAssign, mapLookup, Ne.symm h]
    · by_cases h1 : k0 = k1
      · subst h1
        simp [mapAssign, mapLookup, h0]
      · simp [mapAssign, mapLookup, h0, h1, ih]

/-! ## store.go -/

theorem Store.save_Tasks (s : Store) (o : SaveOutcome) : (s.save o).1.Tasks = s.Tasks := by
  cases o <;> rfl

theorem Store.save_err (s : Store) (o : SaveOutcome) : (s.save o).2 = o.err := by
  cases o <;> rfl

theorem Store.GetTask_of_lookup (s : Store) (m : Table) (id : String) (t : Task)
    (hm : s.Tasks = some m) (ht : mapLookup m id = some t) : s.GetTask id = (t, true) := by
  simp [Store.GetTask, hm, ht]

theorem Store.GetTask_found (s : Store) (id : String) (t : Task) (h : s.GetTask id = (t, true)) :
    ∃ m, s.Tasks = some m ∧ mapLookup m id = some t := by
  unfold Store.GetTask at h
  cases hm : s.Tasks with
  | none => simp [hm] at h
  | some m =>
    rw [hm] at h
    cases hl : mapLookup m id with
    | none => simp [hl] at h
    | some t1 =>
      simp [hl] at h
      exact ⟨m, rfl, by rw [hl, h]⟩

/-- On a store whose table is an allocated map, `UpdateTask(t)` returns, the table then
maps `t.ID` to `t` and every other identifier to what it mapped to before, and the
returned error is the error of the snapshot write, whatever its outcome. -/
theorem Store.UpdateTask_allocated (s : Store) (m : Table) (t : Task) (o : SaveOutcome)
    (hm : s.Tasks = some m) :
    ∃ s1, s.UpdateTask t o = Except.ok (s1, o.err) ∧
      s1.Tasks = some (mapAssign m t.ID t) ∧
      s1.GetTask t.ID = (t, true) ∧
      ∀ id, id ≠ t.ID → s1.GetTask id = s.GetTask id := by
  refine ⟨({ s with Tasks := some (mapAssign m t.ID t) } : Store).save o |>.1, ?_, ?_, ?_, ?_⟩
  · simp only [Store.UpdateTask, Store.assign, hm]
    rw [← Store.save_err { s with Tasks := some (mapAssign m t.ID t) } o]
  · rw [Store.save_Tasks]
  · apply Store.GetTask_of_lookup _ (mapAssign m t.ID t)
    · rw [Store.save_Tasks]
    · exact mapLookup_mapAssign_self m t.ID t
  · intro id hid
    simp only [Store.GetTask, Store.save_Tasks, hm, mapLookup_mapAssign_ne m t.ID id t hid]

/-- The same for `AddTask(t)`, whether or not `t.ID` was in the table. -/
theorem Store.AddTask_allocated (s : Store) (m : Table) (t : Task) (o : SaveOutcome)
    (hm : s.Tasks = some m) :
    ∃ s1, s.AddTask t o = Except.ok (s1, o.err) ∧
      s1.Tasks = some (mapAssign m t.ID t) ∧
      s1.GetTask t.ID = (t, true) ∧
      ∀ id, id ≠ t.ID → s1.GetTask id = s.GetTask id :=
  Store.UpdateTask_allocated s m t o hm

/-- What `NewStore` returns for each outcome of reading and parsing the snapshot: an error
and no store exactly when the read failed for another reason than a missing file or the
content did not parse; a store with an empty allocated table when the file is missing. -/
theorem NewStore_cases (path : String) (r : ReadOutcome) :
    ((NewStore path r).1 = none ↔ (NewStore path r).2 ≠ none) ∧
    ((NewStore path r).2 ≠ none ↔
      (∃ msg, r = ReadOutcome.failed msg) ∨ (∃ e, r = ReadOutcome.data (Content.invalid e))) ∧
    (∀ msg, r = ReadOutcome.notExist msg →
      ∃ s, NewStore path r = (some s, none) ∧ s.Tasks = some []) ∧
    (∀ m, r = ReadOutcome.data (Content.object m) →
      ∃ s, NewStore path r = (some s, none) ∧ s.Tasks = some m) := by
  cases r with
  | notExist msg => simp [NewStore, Store.load]
  | failed msg => simp [NewStore, Store.load]
  | data c => cases c <;> simp [NewStore, Store.load, unmarshal]

/-- C10 (the code departs from the claim): reading a snapshot file whose content is the
JSON value null, `NewStore` returns a store and no error, the table of that store is the
nil map, and a following `AddTask` panics on the map write instead of inserting the task. -/
theorem NewStore_null_then_AddTask_panics (path : String) (t : Task) (o : SaveOutcome) :
    ∃ s, NewStore path (ReadOutcome.data Content.null) = (some s, none) ∧ s.Tasks = none ∧
      s.AddTask t o = Except.error "assignment to entry in nil map" :=
  ⟨_, rfl, rfl, rfl⟩

/-- C8 (the code departs from the claim): on the store that `NewStore` returns for a
snapshot file holding the JSON value null, neither `AddTask(t)` nor `UpdateTask(t)` returns:
both panic, whatever the task and the outcome of the snapshot write, and the table still
maps `t.ID` to nothing. -/
theorem AddTask_UpdateTask_panic_on_nil_table (t : Task) (o : SaveOutcome) :
    ∃ s, (NewStore "tasks.json" (ReadOutcome.data Content.null)).1 = some s ∧
      s.AddTask t o = Except.error "assignment to entry in nil map" ∧
      s.UpdateTask t o = Except.error "assignment to entry in nil map" ∧
      s.GetTask t.ID = (Task.zero, false) :=
  ⟨_, rfl, rfl, rfl, rfl⟩

/-! ## downloader.go: the worker -/

theorem List.set_of_getElem? {α : Type} (l : List α) (i : Nat) (a : α) (h : l[i]? = some a) :
    l.set i a = l := by
  apply List.ext_getElem?
  intro j
  rw [List.getElem?_set]
  by_cases hij : i = j
  · subst hij
    obtain ⟨hlt, _⟩ := List.getElem?_eq_some.mp h
    simp [hlt, h]
  · simp [hij]

theorem Store.shareFiles_Tasks (s : Store) (key : String) (files : List FileStatus) (m : Table)
    (hm : s.Tasks = some m) :
    ∃ m1, (s.shareFiles key files).Tasks = some m1 := by
  simp [Store.shareFiles, hm]

theorem Pass.update_spec (p : Pass) (key : String) (o : SaveOutcome) (m : Table)
    (hm : p.store.Tasks = some m) :
    ∃ s1 m1, p.update key o =
        Except.ok ({ p with store := s1, events := p.events ++ [Event.updateTask p.task] }, o.err) ∧
      s1.Tasks = some m1 ∧ s1.GetTask p.task.ID = (p.task, true) := by
  obtain ⟨m0, hm0⟩ := Store.shareFiles_Tasks p.store key p.task.Files m hm
  obtain ⟨s1, h1, h2, h3, _⟩ :=
    Store.UpdateTask_allocated (p.store.shareFiles key p.task.Files) m0 p.task o hm0
  exact ⟨s1, _, by simp [Pass.update, h1], h2, h3⟩

theorem workerFile_spec (o : FileEnv) (key : String) (i : Nat) (p : Pass) (m : Table)
    (f : FileStatus) (hm : p.store.Tasks = some m) (hf : p.task.Files[i]? = some f) :
    ∃ p1 m1, workerFile o key i p = Except.ok p1 ∧ p1.store.Tasks = some m1 ∧
      p1.task = p.task.setFile i (fileAfter o p.task.ID f) ∧
      p1.events.filterMap Event.visitIndex = p.events.filterMap Event.visitIndex ++ [i] ∧
      p1.events.filterMap Event.downloadIndex =
        p.events.filterMap Event.downloadIndex ++ (if attempted o f then [i] else []) ∧
      (f.State = Done → p1.store = p.store ∧ p1.events = p.events ++ [Event.visit i]) ∧
      (f.State ≠ Done → p1.store.GetTask p.task.ID = (p1.task, true)) := by
  by_cases hd : f.State = Done
  · refine ⟨{ p with events := p.events ++ [Event.visit i] }, m, ?_, hm, ?_, ?_, ?_, ?_, ?_⟩
    · simp [workerFile, hf, hd]
    · simp [fileAfter, hd, Task.setFile, List.set_of_getElem? _ _ _ hf]
    · simp [List.filterMap_append, Event.visitIndex]
    · simp [List.filterMap_append, Event.downloadIndex, attempted, hd]
    · intro _; exact ⟨rfl, rfl⟩
    · intro h; exact absurd hd h
  · have hnd : ¬ f.State = "done" := hd
    obtain ⟨s1, m1, hu1, hm1, _⟩ := Pass.update_spec
      { p with events := p.events ++ [Event.visit i],
               task := p.task.setFile i { f with State := InProgress, Error := "" } }
      key o.mark m hm
    cases hme : o.mark.err with
    | some err =>
      rw [hme] at hu1
      obtain ⟨s2, m2, hu2, hm2, hg2⟩ := Pass.update_spec
        { store := s1,
          task := (p.task.setFile i { f with State := InProgress, Error := "" }).setFile i
            { f with State := Failed, Error := err },
          events := p.events ++ [Event.visit i] ++
            [Event.updateTask (p.task.setFile i { f with State := InProgress, Error := "" })] }
        key o.record m1 hm1
      refine ⟨({
          store := s2,
          task := (p.task.setFile i { f with State := InProgress, Error := "" }).setFile i
            { f with State := Failed, Error := err },
          events := p.events ++ [Event.visit i] ++
            [Event.updateTask (p.task.setFile i { f with State := InProgress, Error := "" })] ++
            [Event.updateTask ((p.task.setFile i { f with State := InProgress, Error := "" }).setFile i
            { f with State := Failed, Error := err })] } : Pass), m2, ?_, hm2, ?_, ?_, ?_, ?_, ?_⟩
      · simp only [workerFile, hf, hnd, if_false]
        rw [hu1]
        simp only []
        rw [hu2]
      · simp [fileAfter, hnd, hme, Task.setFile, List.set_set]
      · simp [List.filterMap_append, Event.visitIndex]
      · simp [List.filterMap_append, Event.downloadIndex, attempted, hme]
      · intro h; exact absurd h hd
      · intro _; simpa [Task.setFile] using hg2
    | none =>
      rw [hme] at hu1
      cases hdl : downloadFile o.dl p.task.ID { f with State := InProgress, Error := "" } with
      | mk g e =>
        cases e with
        | some err =>
          obtain ⟨s2, m2, hu2, hm2, hg2⟩ := Pass.update_spec
            { store := s1,
              task := (p.task.setFile i { f with State := InProgress, Error := "" }).setFile i
                { g with State := Failed, Error := err },
              events := p.events ++ [Event.visit i] ++
                [Event.updateTask (p.task.setFile i { f with State := InProgress, Error := "" })] ++
                [Event.download p.task.ID i] }
            key o.record m1 hm1
          refine ⟨({
          store := s2,
          task := (p.task.setFile i { f with State := InProgress, Error := "" }).setFile i
            { g with State := Failed, Error := err },
          events := p.events ++ [Event.visit i] ++
            [Event.updateTask (p.task.setFile i { f with State := InProgress, Error := "" })] ++
            [Event.download p.task.ID i] ++
            [Event.updateTask ((p.task.setFile i { f with State := InProgress, Error := "" }).setFile i
            { g with State := Failed, Error := err })] } : Pass), m2, ?_, hm2, ?_, ?_, ?_, ?_, ?_⟩
          · simp only [workerFile, hf, hnd, if_false]
            rw [hu1]
            simp only [Task.setFile] at hdl ⊢
            rw [hdl]
            simp only []
            simp only [Task.setFile] at hu2
            rw [hu2]
          · simp [fileAfter, hnd, hme, hdl, Task.setFile, List.set_set]
          · simp [List.filterMap_append, Event.visitIndex]
          · simp [List.filterMap_append, Event.downloadIndex, attempted, hme, hnd]
          · intro h; exact absurd h hd
          · intro _; simpa [Task.setFile] using hg2
        | none =>
          obtain ⟨s2, m2, hu2, hm2, hg2⟩ := Pass.update_spec
            { store := s1,
              task := (p.task.setFile i { f with State := InProgress, Error := "" }).setFile i
                { g with State := Done },
              events := p.events ++ [Event.visit i] ++
                [Event.updateTask (p.task.setFile i { f with State := InProgress, Error := "" })] ++
                [Event.download p.task.ID i] }
            key o.record m1 hm1
          refine ⟨({
          store := s2,
          task := (p.task.setFile i { f with State := InProgress, Error := "" }).setFile i
            { g with State := Done },
          events := p.events ++ [Event.visit i] ++
            [Event.updateTask (p.task.setFile i { f with State := InProgress, Error := "" })] ++
            [Event.download p.task.ID i] ++
            [Event.updateTask ((p.task.setFile i { f with State := InProgress, Error := "" }).setFile i
            { g with State := Done })] } : Pass), m2, ?_, hm2, ?_, ?_, ?_, ?_, ?_⟩
          · simp only [workerFile, hf, hnd, if_false]
            rw [hu1]
            simp only [Task.setFile] at hdl ⊢
            rw [hdl]
            simp only []
            simp only [Task.setFile] at hu2
            rw [hu2]
          · simp [fileAfter, hnd, hme, hdl, Task.setFile, List.set_set]
          · simp [List.filterMap_append, Event.visitIndex]
          · simp [List.filterMap_append, Event.downloadIndex, attempted, hme, hnd]
          · intro h; exact absurd h hd
          · intro _; simpa [Task.setFile] using hg2

theorem workerFiles_spec (env : WorkerEnv) (key : String) (n : Nat) :
    ∀ (i : Nat) (p : Pass) (m : Table), p.store.Tasks = some m →
      i + n = p.task.Files.length →
      ∃ p1 m1, workerFiles env key n i p = Except.ok p1 ∧ p1.store.Tasks = some m1 ∧
        (p1.task.ID = p.task.ID ∧ p1.task.Name = p.task.Name ∧
          p1.task.CreatedAt = p.task.CreatedAt) ∧
        p1.task.Files.length = p.task.Files.length ∧
        (∀ j, j < i → p1.task.Files[j]? = p.task.Files[j]?) ∧
        (∀ j, i ≤ j →
          p1.task.Files[j]? = (p.task.Files[j]?).map (fileAfter (env j) p.task.ID)) ∧
        p1.events.filterMap Event.visitIndex =
          p.events.filterMap Event.visitIndex ++ List.range' i n ∧
        p1.events.filterMap Event.downloadIndex =
          p.events.filterMap Event.downloadIndex ++
            (List.range' i n).filter (fun j => (p.task.Files[j]?).any (attempted (env j))) ∧
        ((∀ j f, i ≤ j → p.task.Files[j]? = some f → f.State = Done) →
          p1.store = p.store ∧ p1.task = p.task ∧
          p1.events = p.events ++ (List.range' i n).map Event.visit) ∧
        (p.store.GetTask p.task.ID = (p.task, true) →
          p1.store.GetTask p1.task.ID = (p1.task, true)) := by
  induction n with
  | zero =>
    intro i p m hm hlen
    refine ⟨p, m, rfl, hm, ⟨rfl, rfl, rfl⟩, rfl, fun _ _ => rfl, ?_, by simp, by simp, ?_, id⟩
    · intro j hj
      have : p.task.Files.length ≤ j := by omega
      simp [List.getElem?_eq_none this]
    · intro _; simp
  | succ n ih =>
    intro i p m hm hlen
    have hi : i < p.task.Files.length := by omega
    have hf : p.task.Files[i]? = some p.task.Files[i] := List.getElem?_eq_getElem hi
    obtain ⟨p1, m1, hw, hm1, ht1, hv1, hd1, hdone1, hget1⟩ :=
      workerFile_spec (env i) key i p m _ hm hf
    have hlen1 : p1.task.Files.length = p.task.Files.length := by
      rw [ht1]; simp [Task.setFile]
    have hid1 : p1.task.ID = p.task.ID := by rw [ht1]; rfl
    obtain ⟨p2, m2, hw2, hm2, ⟨hid2, hname2, hcr2⟩, hlen2, hlt2, hge2, hv2, hd2, hdone2, hget2⟩ :=
      ih (i + 1) p1 m1 hm1 (by omega)
    have hother : ∀ j, j ≠ i → p1.task.Files[j]? = p.task.Files[j]? := by
      intro j hj
      rw [ht1]
      simp only [Task.setFile]
      exact List.getElem?_set_ne (Ne.symm hj)
    have hself : p1.task.Files[i]? = some (fileAfter (env i) p.task.ID p.task.Files[i]) := by
      rw [ht1]
      simp only [Task.setFile]
      rw [List.getElem?_set]
      simp [hi]
    refine ⟨p2, m2, ?_, hm2, ⟨?_, ?_, ?_⟩, by omega, ?_, ?_, ?_, ?_, ?_, ?_⟩
    · simp only [workerFiles, hw]
      exact hw2
    · rw [hid2, hid1]
    · rw [hname2, ht1]; rfl
    · rw [hcr2, ht1]; rfl
    · intro j hj
      rw [hlt2 j (by omega), hother j (by omega)]
    · intro j hj
      by_cases hji : j = i
      · subst hji
        rw [hlt2 j (by omega), hself, hf]
        rfl
      · rw [hge2 j (by omega), hother j hji, hid1]
    · rw [hv2, hv1, List.range'_succ, List.append_assoc]
      rfl
    · rw [hd2, hd1, List.range'_succ, List.append_assoc]
      congr 1
      have hfilt : (List.range' (i + 1) n).filter
            (fun j => (p1.task.Files[j]?).any (attempted (env j))) =
          (List.range' (i + 1) n).filter
            (fun j => (p.task.Files[j]?).any (attempted (env j))) := by
        apply List.filter_congr
        intro j hj
        have : i + 1 ≤ j := (List.mem_range'_1.mp hj).1
        rw [hother j (by omega)]
      rw [hfilt, List.filter_cons]
      simp only [hf, Option.any_some]
      cases attempted (env i) p.task.Files[i] <;> simp
    · intro hall
      have hdi : p.task.Files[i].State = Done := hall i _ (le_refl i) hf
      obtain ⟨hs1, he1⟩ := hdone1 hdi
      have htask1 : p1.task = p.task := by
        rw [ht1]
        simp [fileAfter, hdi, Task.setFile, List.set_of_getElem? _ _ _ hf]
      have hall1 : ∀ j f, i + 1 ≤ j → p1.task.Files[j]? = some f → f.State = Done := by
        intro j f hj hjf
        rw [htask1] at hjf
        exact hall j f (by omega) hjf
      obtain ⟨hs2, ht2, he2⟩ := hdone2 hall1
      refine ⟨by rw [hs2, hs1], by rw [ht2, htask1], ?_⟩
      rw [he2, he1, List.range'_succ, List.append_assoc]
      rfl
    · intro hg
      apply hget2
      by_cases hdi : p.task.Files[i].State = Done
      · obtain ⟨hs1, _⟩ := hdone1 hdi
        have htask1 : p1.task = p.task := by
          rw [ht1]
          simp [fileAfter, hdi, Task.setFile, List.set_of_getElem? _ _ _ hf]
        rw [hs1, htask1]
        exact hg
      · rw [hid1]
        exact hget1 hdi

theorem downloadFile_keeps (e : DownloadEnv) (taskID : String) (f : FileStatus) :
    (downloadFile e taskID f).1.State = f.State ∧ (downloadFile e taskID f).1.Error = f.Error ∧
      (downloadFile e taskID f).1.URL = f.URL := by
  unfold downloadFile
  repeat (first | split | simp)

theorem downloadFile_ok_Size (e : DownloadEnv) (taskID : String) (f : FileStatus)
    (h : (downloadFile e taskID f).2 = none) :
    (downloadFile e taskID f).1.Size = (e.copied : Int) := by
  cases h1 : e.mkdirErr <;> cases h2 : e.reqErr <;> cases h3 : e.doErr <;>
    cases h4 : e.createErr <;> cases h5 : e.copyErr <;> cases h6 : e.renameErr <;>
    by_cases hs : (e.statusCode < 200 ∨ e.statusCode ≥ 300) <;>
    simp [downloadFile, h1, h2, h3, h4, h5, h6, hs] at h ⊢

/-- A call of `downloadFile` that fails before the final rename leaves `Size` as it was. -/
theorem downloadFile_early_error_Size (e : DownloadEnv) (taskID : String) (f : FileStatus)
    (h : e.mkdirErr ≠ none ∨ e.reqErr ≠ none ∨ e.doErr ≠ none ∨
      (e.statusCode < 200 ∨ e.statusCode ≥ 300) ∨ e.createErr ≠ none ∨ e.copyErr ≠ none) :
    (downloadFile e taskID f).2 ≠ none ∧ (downloadFile e taskID f).1.Size = f.Size := by
  cases h1 : e.mkdirErr <;> cases h2 : e.reqErr <;> cases h3 : e.doErr <;>
    cases h4 : e.createErr <;> cases h5 : e.copyErr <;> cases h6 : e.renameErr <;>
    by_cases hs : (e.statusCode < 200 ∨ e.statusCode ≥ 300) <;>
    simp [downloadFile, h1, h2, h3, h4, h5, h6, hs] at h ⊢

/-- A call of `downloadFile` that fails at the final rename has already set `Size`. -/
theorem downloadFile_rename_error_Size (e : DownloadEnv) (taskID : String) (f : FileStatus)
    (err : String)
    (h : e.mkdirErr = none ∧ e.reqErr = none ∧ e.doErr = none ∧
      ¬ (e.statusCode < 200 ∨ e.statusCode ≥ 300) ∧ e.createErr = none ∧ e.copyErr = none)
    (hr : e.renameErr = some err) :
    (downloadFile e taskID f).2 = some err ∧
      (downloadFile e taskID f).1.Size = (e.copied : Int) := by
  obtain ⟨h1, h2, h3, hs, h4, h5⟩ := h
  simp [downloadFile, h1, h2, h3, h4, h5, hr, hs]

theorem fileAfter_of_done (o : FileEnv) (taskID : String) (f : FileStatus) (h : f.State = Done) :
    fileAfter o taskID f = f := by
  simp [fileAfter, h]

theorem fileAfter_of_mark_failed (o : FileEnv) (taskID : String) (f : FileStatus) (e : String)
    (h : f.State ≠ Done) (he : o.mark.err = some e) :
    fileAfter o taskID f = { f with State := Failed, Error := e } := by
  have h1 : ¬ f.State = "done" := h
  simp [fileAfter, h1, he]

theorem fileAfter_of_download_ok (o : FileEnv) (taskID : String) (f : FileStatus)
    (h : f.State ≠ Done) (he : o.mark.err = none)
    (hd : (downloadFile o.dl taskID { f with State := InProgress, Error := "" }).2 = none) :
    (fileAfter o taskID f).State = Done ∧ (fileAfter o taskID f).Error = "" ∧
      (fileAfter o taskID f).Size = (o.dl.copied : Int) := by
  have h1 : ¬ f.State = "done" := h
  have hk := downloadFile_keeps o.dl taskID { f with State := InProgress, Error := "" }
  have hs := downloadFile_ok_Size o.dl taskID { f with State := InProgress, Error := "" } hd
  cases hr : downloadFile o.dl taskID { f with State := InProgress, Error := "" } with
  | mk g e =>
    rw [hr] at hd hk hs
    simp only at hd hk hs
    subst hd
    simp [fileAfter, h1, he, hr, hk.2.1, hs]

theorem fileAfter_of_download_failed (o : FileEnv) (taskID : String) (f : FileStatus) (e : String)
    (h : f.State ≠ Done) (he : o.mark.err = none)
    (hd : (downloadFile o.dl taskID { f with State := InProgress, Error := "" }).2 = some e) :
    (fileAfter o taskID f).State = Failed ∧ (fileAfter o taskID f).Error = e := by
  have h1 : ¬ f.State = "done" := h
  cases hr : downloadFile o.dl taskID { f with State := InProgress, Error := "" } with
  | mk g e1 =>
    rw [hr] at hd
    simp only at hd
    subst hd
    simp [fileAfter, h1, he, hr]

theorem fileAfter_settled (o : FileEnv) (taskID : String) (f : FileStatus) (h : f.State ≠ Done) :
    (fileAfter o taskID f).State = Done ∨ (fileAfter o taskID f).State = Failed := by
  cases he : o.mark.err with
  | some e => right; rw [fileAfter_of_mark_failed o taskID f e h he]
  | none =>
    cases hd : (downloadFile o.dl taskID { f with State := InProgress, Error := "" }).2 with
    | none => left; exact (fileAfter_of_download_ok o taskID f h he hd).1
    | some e => right; exact (fileAfter_of_download_failed o taskID f e h he hd).1

/-- The worker's pass over a task it found: it returns, and reads as `workerFiles_spec`
says from index 0. -/
theorem workerTask_spec (env : WorkerEnv) (s : Store) (taskID : String) (t : Task)
    (hget : s.GetTask taskID = (t, true)) :
    ∃ p, workerTask env s taskID = Except.ok p ∧
      (p.task.ID = t.ID ∧ p.task.Name = t.Name ∧ p.task.CreatedAt = t.CreatedAt) ∧
      p.task.Files.length = t.Files.length ∧
      (∀ j, p.task.Files[j]? = (t.Files[j]?).map (fileAfter (env j) t.ID)) ∧
      p.events.filterMap Event.visitIndex = List.range t.Files.length ∧
      p.events.filterMap Event.downloadIndex =
        (List.range t.Files.length).filter (fun j => (t.Files[j]?).any (attempted (env j))) ∧
      ((∀ f ∈ t.Files, f.State = Done) →
        p.store = s ∧ p.task = t ∧ p.events = (List.range t.Files.length).map Event.visit) ∧
      (t.ID = taskID → p.store.GetTask taskID = (p.task, true)) := by
  obtain ⟨m, hm, _⟩ := Store.GetTask_found s taskID t hget
  obtain ⟨p, m1, hw, _, hids, hlen, _, hge, hv, hd, hdone, hg⟩ :=
    workerFiles_spec env taskID t.Files.length 0 { store := s, task := t, events := [] } m hm
      (by simp)
  refine ⟨p, ?_, hids, hlen, fun j => hge j (Nat.zero_le j), ?_, ?_, ?_, ?_⟩
  · simp only [workerTask, hget]
    exact hw
  · simpa [List.range_eq_range'] using hv
  · simpa [List.range_eq_range'] using hd
  · intro hall
    have := hdone (fun j f _ hjf => hall f (List.getElem?_mem hjf))
    simpa [List.range_eq_range'] using this
  · intro hkey
    have h1 := hg (by simpa [hkey] using hget)
    rw [hids.1, hkey] at h1
    exact h1

/-- The worker never panics, whatever the store and the answers of the environment: it
ends the pass over every identifier it receives and goes on to the next one. -/
theorem worker_returns (envs : Nat → WorkerEnv) (ids : List String) :
    ∀ (k : Nat) (s : Store) (ev : List Event), ∃ r, worker envs ids k s ev = Except.ok r := by
  induction ids with
  | nil => intro k s ev; exact ⟨_, rfl⟩
  | cons taskID rest ih =>
    intro k s ev
    cases hget : s.GetTask taskID with
    | mk t found =>
      cases found with
      | false =>
        simp only [worker, workerTask, hget]
        exact ih _ _ _
      | true =>
        obtain ⟨p, hp, _⟩ := workerTask_spec (envs k) s taskID t hget
        simp only [worker, hp]
        exact ih _ _ _

/-! ## Claims on the worker pass -/

/-- C1: for a task the worker fetches and a file of it that is not Done at pick-up, the
record after the pass is: Failed with the persistence error's message, and no call of the
download operation, when persisting the InProgress mark failed; otherwise Done with an empty
Error and Size equal to the bytes transferred when the download succeeded; otherwise Failed
with the download error's message. Files that were Done keep their record, so after the pass
every file is Done or Failed, none is Pending or InProgress, and the store holds that task. -/
theorem worker_file_records (env : WorkerEnv) (s : Store) (taskID : String) (t : Task)
    (hget : s.GetTask taskID = (t, true)) :
    ∃ p, workerTask env s taskID = Except.ok p ∧
      (∀ (i : Nat) (f : FileStatus), t.Files[i]? = some f → f.State ≠ Done →
        ∃ g, p.task.Files[i]? = some g ∧
          (∀ e, (env i).mark.err = some e →
            g.State = Failed ∧ g.Error = e ∧
              i ∉ p.events.filterMap Event.downloadIndex) ∧
          ((env i).mark.err = none →
            (p.events.filterMap Event.downloadIndex).count i = 1 ∧
            ((downloadFile (env i).dl t.ID { f with State := InProgress, Error := "" }).2 = none →
              g.State = Done ∧ g.Error = "" ∧ g.Size = ((env i).dl.copied : Int)) ∧
            (∀ e,
              (downloadFile (env i).dl t.ID { f with State := InProgress, Error := "" }).2 = some e →
              g.State = Failed ∧ g.Error = e))) ∧
      (∀ (i : Nat) (f : FileStatus), t.Files[i]? = some f → f.State = Done → p.task.Files[i]? = some f) ∧
      p.task.Files.length = t.Files.length ∧
      (∀ g ∈ p.task.Files,
        (g.State = Done ∨ g.State = Failed) ∧ g.State ≠ Pending ∧ g.State ≠ InProgress) ∧
      (t.ID = taskID → p.store.GetTask taskID = (p.task, true)) := by
  obtain ⟨p, hw, _, hlen, hfiles, _, hd, _, hstore⟩ := workerTask_spec env s taskID t hget
  refine ⟨p, hw, ?_, ?_, hlen, ?_, hstore⟩
  · intro i f hf hnd
    have hi : i < t.Files.length := (List.getElem?_eq_some.mp hf).1
    refine ⟨fileAfter (env i) t.ID f, by rw [hfiles i, hf]; rfl, ?_, ?_⟩
    · intro e he
      rw [fileAfter_of_mark_failed (env i) t.ID f e hnd he]
      refine ⟨rfl, rfl, ?_⟩
      rw [hd]
      intro hmem
      have := (List.mem_filter.mp hmem).2
      simp [hf, attempted, he] at this
    · intro he
      refine ⟨?_, fun hok => fileAfter_of_download_ok (env i) t.ID f hnd he hok,
        fun e herr => fileAfter_of_download_failed (env i) t.ID f e hnd he herr⟩
      rw [hd]
      apply List.count_eq_one_of_mem ((List.nodup_range _).filter _)
      apply List.mem_filter.mpr
      refine ⟨List.mem_range.mpr hi, ?_⟩
      have h1 : ¬ f.State = "done" := hnd
      simp [hf, attempted, he, h1]
  · intro i f hf hdone
    rw [hfiles i, hf]
    simp [fileAfter_of_done (env i) t.ID f hdone]
  · intro g hg
    obtain ⟨i, hi⟩ := List.mem_iff_getElem?.mp hg
    rw [hfiles i] at hi
    cases hf : t.Files[i]? with
    | none => simp [hf] at hi
    | some f =>
      rw [hf] at hi
      simp only [Option.map_some'] at hi
      have hg2 : g = fileAfter (env i) t.ID f := (Option.some.inj hi).symm
      have hsettled : g.State = Done ∨ g.State = Failed := by
        by_cases hdone : f.State = Done
        · left
          rw [hg2, fileAfter_of_done (env i) t.ID f hdone]
          exact hdone
        · rw [hg2]
          exact fileAfter_settled (env i) t.ID f hdone
      refine ⟨hsettled, ?_, ?_⟩
      · rcases hsettled with h | h <;> rw [h] <;> decide
      · rcases hsettled with h | h <;> rw [h] <;> decide

/-- Witness of C1 on the sample task: first file downloaded, second one answered by a 404. -/
theorem worker_file_records_witness :
    (sampleStore [sampleTask]).GetTask "a" = (sampleTask, true) ∧
      ∃ p, workerTask sampleEnv (sampleStore [sampleTask]) "a" = Except.ok p ∧
        p.task.Files.length = sampleTask.Files.length :=
  ⟨by decide,
    (worker_file_records sampleEnv (sampleStore [sampleTask]) "a" sampleTask (by decide)).imp
      (fun _ h => ⟨h.1, h.2.2.2.1⟩)⟩

/-- The failure-isolation scenario on the sample task: the first file is downloaded, the
second meets a 404; the pass leaves the first Done with its size and the second Failed
with the status text, and `GetTask` shows both. -/
theorem worker_sample_pass :
    ∃ p, workerTask sampleEnv (sampleStore [sampleTask]) "a" = Except.ok p ∧
      p.task.Files.map (fun f => (f.FileName, f.State, f.Error, f.Size)) =
        [("x.bin", Done, "", 5), ("missing", Failed, "bad status: 404 Not Found", 0)] ∧
      p.store.GetTask "a" = (p.task, true) :=
  ⟨_, rfl, by decide, by decide⟩

/-- C2: whatever the outcomes of the downloads and of the saves, the pass visits every file
of the task exactly once and in sequence order; the files it downloads are, in order, those
that were not Done at pick-up and whose mark was persisted, which does not look at any other
file; the record it leaves for a file is a function of that file's pick-up record and of that
file's own outcomes only, so a file that was not Done is settled as Done or Failed whatever
happened to the files before it, and two runs whose outcomes differ only on file i leave every
other file j with the same record. -/
theorem worker_files_independent (env env1 : WorkerEnv) (s : Store) (taskID : String) (t : Task)
    (hget : s.GetTask taskID = (t, true)) :
    ∃ p p1, workerTask env s taskID = Except.ok p ∧ workerTask env1 s taskID = Except.ok p1 ∧
      p.events.filterMap Event.visitIndex = List.range t.Files.length ∧
      p.events.filterMap Event.downloadIndex =
        (List.range t.Files.length).filter
          (fun j => (t.Files[j]?).any (fun f => decide (f.State ≠ Done) && (env j).mark.err.isNone)) ∧
      (∀ j : Nat, p.task.Files[j]? = (t.Files[j]?).map (fileAfter (env j) t.ID)) ∧
      (∀ (j : Nat) (f : FileStatus), t.Files[j]? = some f → f.State ≠ Done →
        ∃ g : FileStatus, p.task.Files[j]? = some g ∧ (g.State = Done ∨ g.State = Failed)) ∧
      (∀ j : Nat, env j = env1 j → p.task.Files[j]? = p1.task.Files[j]?) := by
  obtain ⟨p, hw, _, _, hfiles, hv, hd, _, _⟩ := workerTask_spec env s taskID t hget
  obtain ⟨p1, hw1, _, _, hfiles1, _, _, _, _⟩ := workerTask_spec env1 s taskID t hget
  refine ⟨p, p1, hw, hw1, hv, hd, hfiles, ?_, ?_⟩
  · intro j f hf hnd
    exact ⟨fileAfter (env j) t.ID f, by rw [hfiles j, hf]; rfl,
      fileAfter_settled (env j) t.ID f hnd⟩
  · intro j hj
    rw [hfiles j, hfiles1 j, hj]

/-- Witness of C2 on the sample task, with a second run in which every download fails. -/
theorem worker_files_independent_witness :
    (sampleStore [sampleTask]).GetTask "a" = (sampleTask, true) ∧
      ∃ p p1, workerTask sampleEnv (sampleStore [sampleTask]) "a" = Except.ok p ∧
        workerTask sampleEnvRenameFails (sampleStore [sampleTask]) "a" = Except.ok p1 ∧
        p.events.filterMap Event.visitIndex = [0, 1] :=
  ⟨by decide,
    (worker_files_independent sampleEnv sampleEnvRenameFails (sampleStore [sampleTask]) "a"
      sampleTask (by decide)).imp
      (fun _ h => h.imp (fun _ h1 => ⟨h1.1, h1.2.1, h1.2.2.1⟩))⟩

/-- C3: a pass over a stored task whose files are all Done returns with the store equal in
every field to the store before it (table, snapshot file, temporary file and number of saves),
with the task unchanged, and having only stepped through the files: it made no call of the
download operation and no call of UpdateTask. -/
theorem worker_all_done_changes_nothing (env : WorkerEnv) (s : Store) (taskID : String)
    (t : Task) (hget : s.GetTask taskID = (t, true)) (hall : ∀ f ∈ t.Files, f.State = Done) :
    ∃ p, workerTask env s taskID = Except.ok p ∧ p.store = s ∧ p.task = t ∧
      p.events = (List.range t.Files.length).map Event.visit ∧
      p.events.filterMap Event.downloadIndex = [] ∧ p.events.filter Event.isUpdate = [] := by
  obtain ⟨p, hw, _, _, _, _, _, hdone, _⟩ := workerTask_spec env s taskID t hget
  obtain ⟨hs, ht, he⟩ := hdone hall
  refine ⟨p, hw, hs, ht, he, ?_, ?_⟩
  · rw [he]
    apply List.filterMap_eq_nil_iff.mpr
    intro e hmem
    obtain ⟨i, _, rfl⟩ := List.mem_map.mp hmem
    rfl
  · rw [he]
    apply List.filter_eq_nil_iff.mpr
    intro e hmem
    obtain ⟨i, _, rfl⟩ := List.mem_map.mp hmem
    simp [Event.isUpdate]

/-- Witness of C3 on a stored task of two Done files. -/
theorem worker_all_done_changes_nothing_witness :
    (sampleStore [sampleDoneTask]).GetTask "d" = (sampleDoneTask, true) ∧
      (∀ f ∈ sampleDoneTask.Files, f.State = Done) ∧
      ∃ p, workerTask sampleEnv (sampleStore [sampleDoneTask]) "d" = Except.ok p ∧
        p.store = sampleStore [sampleDoneTask] :=
  ⟨by decide, by decide,
    (worker_all_done_changes_nothing sampleEnv (sampleStore [sampleDoneTask]) "d" sampleDoneTask
      (by decide) (by decide)).imp (fun _ h => ⟨h.1, h.2.1⟩)⟩

/-- C6 (the code departs from the claim): a file picked up Pending with Size 0 whose
transfer copies five bytes and then fails at the final rename of the `.part` file ends
Failed, with the rename error as its message, and with Size 5. -/
theorem worker_size_set_when_rename_fails :
    ∃ p, workerTask sampleEnvRenameFails (sampleStore [sampleSingle]) "a" = Except.ok p ∧
      p.task.Files.map (fun f => (f.State, f.Size)) = [(Failed, 5)] ∧
      p.store.GetTask "a" = (p.task, true) :=
  ⟨_, rfl, by decide, by decide⟩

/-! ## Claims on the destination name and on the resume pass -/

/-- The derived name is never the empty string. -/
theorem fileNameFor_ne_empty (url : String) (now : Int) : fileNameFor url now ≠ "" := by
  unfold fileNameFor
  by_cases h : Base url = "" ∨ Base url = "." ∨ Base url = "/"
  · rw [if_pos h]
    intro hempty
    have := congrArg String.length hempty
    simp [String.length_append] at this
    exact absurd this.1 (by decide)
  · rw [if_neg h]
    intro hempty
    exact h (Or.inl hempty)

/-- C5 (the code departs from the claim): for the URLs "http://host/" and "http://host",
whose path is the root path and the empty path, the name the download operation derives is
"host" at every time of the clock, not a fallback name of the form file_<unix-seconds>; the
record of a file with that URL gets "host" as its file name. -/
theorem fileName_of_root_url_is_host (now : Int) :
    fileNameFor "http://host/" now = "host" ∧ fileNameFor "http://host" now = "host" ∧
      (downloadFile { sampleDownloadOk with now := now } "a"
        { URL := "http://host/", FileName := "", State := InProgress, Error := "",
          Size := 0 }).1.FileName = "host" := by
  have h1 : Base "http://host/" = "host" := by decide
  have h2 : Base "http://host" = "host" := by decide
  have h3 : ¬ ("host" = "" ∨ "host" = "." ∨ "host" = "/") := by decide
  have e1 : fileNameFor "http://host/" now = "host" := by
    unfold fileNameFor
    rw [h1, if_neg h3]
  have e2 : fileNameFor "http://host" now = "host" := by
    unfold fileNameFor
    rw [h2, if_neg h3]
  refine ⟨e1, e2, ?_⟩
  simp [downloadFile, sampleDownloadOk, e1]

theorem needLoop_iff (files : List FileStatus) :
    needLoop files = true ↔ ∃ f ∈ files, f.State ≠ Done := by
  induction files with
  | nil => simp [needLoop]
  | cons f rest ih =>
    by_cases h : f.State = Done
    · have h1 : f.State = "done" := h
      simp [needLoop, h1, ih]
    · have h1 : ¬ f.State = "done" := h
      simp [needLoop, h1]

theorem resumeLoop_spec (tasks : List Task) :
    ∀ m : Manager, resumeLoop tasks m =
      { store := m.store,
        enqueued := m.enqueued ++ (tasks.filter (fun t => needLoop t.Files)).map Task.ID } := by
  induction tasks with
  | nil => intro m; simp [resumeLoop]
  | cons t rest ih =>
    intro m
    cases h : needLoop t.Files <;> simp [resumeLoop, h, ih, Manager.Enqueue]

/-- C7, as stated, fails: `NewStore` accepts a snapshot whose two entries, under the keys
"k1" and "k2", both bear the identifier "a" and both have a pending file; `ResumePending`
on that store enqueues "a" twice, not exactly once. -/
theorem ResumePending_same_identifier_twice :
    ∃ s, NewStore "tasks.json" (ReadOutcome.data (Content.object sampleTwinTable)) =
        (some s, none) ∧
      (s.ListTasks (fun l => l)).map Task.ID = ["a", "a"] ∧
      (Manager.ResumePending { store := s, enqueued := [] } (fun l => l)).enqueued =
        ["a", "a"] ∧
      ((Manager.ResumePending { store := s, enqueued := [] } (fun l => l)).enqueued).count "a" =
        2 :=
  ⟨_, rfl, by decide, by decide, by decide⟩

/-- C7, amended: for every Store table, `ResumePending` leaves the store as it was and makes
one `Enqueue` call, with the task's identifier, for each listed task that has a file whose
state is not Done (Pending, InProgress, Failed or any other value alike) and none for the
other tasks, among them the tasks whose files are all Done and the tasks without files. So
an identifier is enqueued as many times as there are stored tasks bearing it that have such
a file; when the stored tasks bear distinct identifiers, no identifier is enqueued twice and
the identifier of a stored task is enqueued if and only if that task has a file that is not
Done. -/
theorem ResumePending_enqueues (m : Manager) (order : List Task → List Task)
    (horder : ∀ l, (order l).Perm l) :
    (m.ResumePending order).store = m.store ∧
    ∃ calls, (m.ResumePending order).enqueued = m.enqueued ++ calls ∧
      calls = ((m.store.ListTasks order).filter
        (fun t => decide (∃ f ∈ t.Files, f.State ≠ Done))).map Task.ID ∧
      (∀ id : String, calls.count id = (m.store.ListTasks (fun l => l)).countP
        (fun t => decide (t.ID = id ∧ ∃ f ∈ t.Files, f.State ≠ Done))) ∧
      (((m.store.ListTasks (fun l => l)).map Task.ID).Nodup →
        calls.Nodup ∧ ∀ t ∈ m.store.ListTasks (fun l => l),
          (t.ID ∈ calls ↔ ∃ f ∈ t.Files, f.State ≠ Done)) := by
  have hfilter : ∀ l : List Task, l.filter (fun t => needLoop t.Files) =
      l.filter (fun t => decide (∃ f ∈ t.Files, f.State ≠ Done)) := by
    intro l
    apply List.filter_congr
    intro t _
    by_cases h : ∃ f ∈ t.Files, f.State ≠ Done
    · rw [(needLoop_iff t.Files).mpr h]; simp [h]
    · have : needLoop t.Files = false := by
        cases hn : needLoop t.Files with
        | false => rfl
        | true => exact absurd ((needLoop_iff t.Files).mp hn) h
      rw [this]; simp [h]
  have hperm : (m.store.ListTasks order).Perm (m.store.ListTasks (fun l => l)) := by
    unfold Store.ListTasks
    cases m.store.Tasks with
    | none => exact List.Perm.refl _
    | some tb => exact horder _
  refine ⟨?_, _, ?_, rfl, ?_, ?_⟩
  · simp [Manager.ResumePending, resumeLoop_spec]
  · simp [Manager.ResumePending, resumeLoop_spec, hfilter]
  · intro id
    rw [List.count_eq_countP, List.countP_map, List.countP_filter]
    rw [hperm.countP_eq]
    apply List.countP_congr
    intro t _
    simp
  · intro hnd
    have hnd1 : ((m.store.ListTasks order).map Task.ID).Nodup :=
      ((hperm.map Task.ID).nodup_iff).mpr hnd
    refine ⟨((List.filter_sublist _).map Task.ID).nodup hnd1, ?_⟩
    intro t ht
    constructor
    · intro hmem
      obtain ⟨t1, ht1, hid⟩ := List.mem_map.mp hmem
      obtain ⟨hmem1, hneed⟩ := List.mem_filter.mp ht1
      have : t1 = t := List.inj_on_of_nodup_map hnd (hperm.mem_iff.mp hmem1) ht hid
      subst this
      simpa using hneed
    · intro hneed
      apply List.mem_map.mpr
      exact ⟨t, List.mem_filter.mpr ⟨hperm.mem_iff.mpr ht, by simpa using hneed⟩, rfl⟩

/-- Witness of the amended C7: a store with a task to resume and a finished one, bearing
distinct identifiers, listed in reverse: the store is unchanged, "a" alone is enqueued, and
the calls have no identifier twice. -/
theorem ResumePending_enqueues_witness :
    (∀ l : List Task, l.reverse.Perm l) ∧
      (((sampleStore [sampleTask, sampleDoneTask]).ListTasks (fun l => l)).map Task.ID).Nodup ∧
      (Manager.ResumePending { store := sampleStore [sampleTask, sampleDoneTask], enqueued := [] }
        List.reverse).store = sampleStore [sampleTask, sampleDoneTask] ∧
      (Manager.ResumePending { store := sampleStore [sampleTask, sampleDoneTask], enqueued := [] }
        List.reverse).enqueued = ["a"] ∧
      ∃ calls,
        (Manager.ResumePending
          { store := sampleStore [sampleTask, sampleDoneTask], enqueued := [] }
          List.reverse).enqueued = [] ++ calls ∧ calls.Nodup :=
  ⟨fun l => List.reverse_perm l, by decide,
    (ResumePending_enqueues { store := sampleStore [sampleTask, sampleDoneTask], enqueued := [] }
      List.reverse (fun l => List.reverse_perm l)).1,
    by decide,
    (ResumePending_enqueues { store := sampleStore [sampleTask, sampleDoneTask], enqueued := [] }
      List.reverse (fun l => List.reverse_perm l)).2.imp
      (fun _ h => ⟨h.1, (h.2.2.2 (by decide)).1⟩)⟩

/-! ## Claims on the queue and the workers -/

theorem Pool.Separated_init (workers : Nat) : (Pool.init workers).Separated :=
  { idle := fun _ _ => rfl
    queueNodup := List.nodup_nil
    notQueued := fun _ _ h => by simp [Pool.init] at h
    apart := fun _ _ _ _ h => by simp [Pool.init] at h }

theorem Pool.not_held (p : Pool) (taskID : String) (hsep : p.Separated)
    (h : p.holds taskID = false) :
    taskID ∉ p.queue ∧ ∀ w, p.current w ≠ some taskID := by
  simp only [Pool.holds, Bool.or_eq_false_iff] at h
  obtain ⟨hq, hw⟩ := h
  refine ⟨by simpa using hq, ?_⟩
  intro w hcur
  by_cases hlt : w < p.workers
  · have hall := List.any_eq_false.mp hw w (List.mem_range.mpr hlt)
    simp [hcur] at hall
  · have := hsep.idle w (by omega)
    rw [this] at hcur
    exact Option.noConfusion hcur

theorem Pool.Separated_step (p p1 : Pool) (a : PoolStep) (hsep : p.Separated)
    (hfresh : ∀ taskID, a = PoolStep.enqueue taskID → p.holds taskID = false)
    (hstep : p.step a = some p1) : p1.Separated := by
  cases a with
  | enqueue taskID =>
    obtain ⟨hq, hw⟩ := Pool.not_held p taskID hsep (hfresh taskID rfl)
    simp only [Pool.step] at hstep
    split at hstep
    · cases hstep
      refine ⟨hsep.idle, ?_, ?_, hsep.apart⟩
      · exact List.Nodup.append hsep.queueNodup (List.nodup_singleton _)
          (by
            intro a ha hmem
            have : a = taskID := by simpa using hmem
            subst this
            exact hq ha)
      · intro w tid hcur hmem
        rcases List.mem_append.mp hmem with h | h
        · exact hsep.notQueued w tid hcur h
        · have : tid = taskID := by simpa using h
          subst this
          exact hw w hcur
    · exact Option.noConfusion hstep
  | dequeue w =>
    simp only [Pool.step] at hstep
    split at hstep
    · rename_i hw
      cases hq : p.queue with
      | nil => simp [hq] at hstep
      | cons taskID rest =>
        simp only [hq] at hstep
        cases hstep
        have hnd : (taskID :: rest).Nodup := hq ▸ hsep.queueNodup
        refine ⟨?_, ?_, ?_, ?_⟩
        · intro w1 hw1
          have hw1a : p.workers ≤ w1 := hw1
          have hne : w1 ≠ w := by omega
          simp only [Function.update_noteq hne]
          exact hsep.idle w1 hw1a
        · exact (List.nodup_cons.mp hnd).2
        · intro w1 tid hcur
          by_cases hw1 : w1 = w
          · subst hw1
            simp only [Function.update_same] at hcur
            cases hcur
            exact (List.nodup_cons.mp hnd).1
          · simp only [Function.update_noteq hw1] at hcur
            have := hsep.notQueued w1 tid hcur
            rw [hq] at this
            exact fun h => this (List.mem_cons_of_mem _ h)
        · intro w1 w2 tid hne h1 h2
          by_cases hw1 : w1 = w
          · subst hw1
            have hw2 : w2 ≠ w1 := Ne.symm hne
            simp only [Function.update_same] at h1
            simp only [Function.update_noteq hw2] at h2
            cases h1
            have := hsep.notQueued w2 taskID h2
            rw [hq] at this
            exact this (List.mem_cons_self _ _)
          · simp only [Function.update_noteq hw1] at h1
            by_cases hw2 : w2 = w
            · subst hw2
              simp only [Function.update_same] at h2
              cases h2
              have := hsep.notQueued w1 taskID h1
              rw [hq] at this
              exact this (List.mem_cons_self _ _)
            · simp only [Function.update_noteq hw2] at h2
              exact hsep.apart w1 w2 tid hne h1 h2
    · exact Option.noConfusion hstep
  | finish w =>
    simp only [Pool.step] at hstep
    split at hstep
    · cases hstep
      refine ⟨?_, hsep.queueNodup, ?_, ?_⟩
      · intro w1 hw1
        by_cases h : w1 = w
        · subst h; simp
        · simp only [Function.update_noteq h]
          exact hsep.idle w1 hw1
      · intro w1 tid hcur
        by_cases h : w1 = w
        · subst h; simp at hcur
        · simp only [Function.update_noteq h] at hcur
          exact hsep.notQueued w1 tid hcur
      · intro w1 w2 tid hne h1 h2
        by_cases hw1 : w1 = w
        · subst hw1; simp at h1
        · by_cases hw2 : w2 = w
          · subst hw2; simp at h2
          · simp only [Function.update_noteq hw1] at h1
            simp only [Function.update_noteq hw2] at h2
            exact hsep.apart w1 w2 tid hne h1 h2
    · exact Option.noConfusion hstep

theorem Pool.Separated_run (steps : List PoolStep) :
    ∀ p p1 : Pool, p.Separated → p.freshEnqueues steps = true → p.run steps = some p1 →
      p1.Separated := by
  induction steps with
  | nil =>
    intro p p1 hsep _ hrun
    simp only [Pool.run] at hrun
    cases hrun
    exact hsep
  | cons a rest ih =>
    intro p p1 hsep hfresh hrun
    simp only [Pool.run] at hrun
    simp only [Pool.freshEnqueues, Bool.and_eq_true] at hfresh
    cases hstep : p.step a with
    | none => simp [hstep] at hrun
    | some p2 =>
      simp only [hstep] at hrun hfresh
      refine ih p2 p1 (Pool.Separated_step p p2 a hsep ?_ hstep) hfresh.2 hrun
      intro taskID ha
      subst ha
      simpa using hfresh.1

/-- Sends that find room in the channel all complete, in order, without waiting: this is
the case of the `Enqueue` calls of `ResumePending` when the tasks to resume fit the channel. -/
theorem Pool.run_enqueues (ids : List String) :
    ∀ p : Pool, p.queue.length + ids.length ≤ queueCap →
      p.run (ids.map PoolStep.enqueue) = some { p with queue := p.queue ++ ids } := by
  induction ids with
  | nil => intro p _; simp [Pool.run]
  | cons taskID rest ih =>
    intro p hroom
    have hlt : p.queue.length < queueCap := by
      simp only [List.length_cons] at hroom
      omega
    simp only [List.map_cons, Pool.run, Pool.step, if_pos hlt]
    rw [ih]
    · simp
    · simp only [List.length_append, List.length_cons, List.length_nil] at hroom ⊢
      omega

/-- C4, as stated, fails: with two workers, after `Enqueue` was called twice with the same
identifier and each worker took one entry of the queue, both workers are processing that
identifier. -/
theorem pool_same_identifier_on_two_workers :
    ¬ ∀ (steps : List PoolStep) (p : Pool),
        (Pool.init 2).run steps = some p → p.Exclusive := by
  intro h
  have hex := h [PoolStep.enqueue "a", PoolStep.enqueue "a", PoolStep.dequeue 0, PoolStep.dequeue 1]
    _ rfl
  exact hex 0 1 "a" (by decide) (by decide) (by decide) rfl rfl

/-- C4, amended: in every state reached from the start of the pool through `Enqueue` calls
and worker dequeue and finish steps in which no identifier is enqueued while an earlier
enqueue of it is still in the queue or being processed, no two workers are processing the
same task identifier, for any number of workers. -/
theorem pool_exclusive_when_enqueues_fresh (workers : Nat) (steps : List PoolStep) (p : Pool)
    (hfresh : (Pool.init workers).freshEnqueues steps = true)
    (hrun : (Pool.init workers).run steps = some p) : p.Exclusive := by
  have hsep := Pool.Separated_run steps (Pool.init workers) p (Pool.Separated_init workers)
    hfresh hrun
  intro w1 w2 taskID _ _ hne h1 h2
  exact hsep.apart w1 w2 taskID hne h1 h2

/-- Witness of the amended C4: two workers, two identifiers, one of them enqueued again
after its pass ended. -/
theorem pool_exclusive_when_enqueues_fresh_witness :
    (Pool.init 2).freshEnqueues
        [PoolStep.enqueue "a", PoolStep.enqueue "b", PoolStep.dequeue 0, PoolStep.dequeue 1,
          PoolStep.finish 0, PoolStep.enqueue "a", PoolStep.dequeue 0] = true ∧
      ∃ p, (Pool.init 2).run
        [PoolStep.enqueue "a", PoolStep.enqueue "b", PoolStep.dequeue 0, PoolStep.dequeue 1,
          PoolStep.finish 0, PoolStep.enqueue "a", PoolStep.dequeue 0] = some p ∧ p.Exclusive :=
  ⟨by decide, _, rfl,
    pool_exclusive_when_enqueues_fresh 2
      [PoolStep.enqueue "a", PoolStep.enqueue "b", PoolStep.dequeue 0, PoolStep.dequeue 1,
        PoolStep.finish 0, PoolStep.enqueue "a", PoolStep.dequeue 0] _ (by decide) rfl⟩

/-! ## Claims on the store's lock -/

theorem Store.shareFiles_files (s : Store) (key : String) (files : List FileStatus) :
    (s.shareFiles key files).tmpFile = s.tmpFile ∧
      (s.shareFiles key files).snapFile = s.snapFile ∧
      (s.shareFiles key files).saveCalls = s.saveCalls ∧
      (s.shareFiles key files).Path = s.Path :=
  ⟨rfl, rfl, rfl, rfl⟩

theorem Thread.move_lock (th th1 : Thread) (s : Store) (h : th.move s = Move.lock th1) :
    th.pc.inside = false ∧ th1.pc.inside = true ∧
      th1.pc ≠ Pc.written ∧ th1.pc ≠ Pc.renamed ∧ th1.got = th.got ∧ th1.buf = th.buf ∧
      th1.listed = th.listed := by
  obtain ⟨call, pc, buf, got, ls, ta, rc⟩ := th
  cases call with
  | put t o =>
    cases pc <;> cases o <;> simp [Thread.move, Thread.saveMove] at h <;>
      first
        | (subst h; simp [Pc.inside])
        | (cases hs : s.assign t <;> simp [hs] at h)
  | save o =>
    cases pc <;> cases o <;> simp [Thread.move, Thread.saveMove] at h <;>
      (subst h; simp [Pc.inside])
  | get id =>
    cases pc <;> simp [Thread.move] at h
    subst h
    simp [Pc.inside]
  | list =>
    cases pc <;> simp [Thread.move] at h
    subst h
    simp [Pc.inside]
  | write key files =>
    cases pc <;> simp [Thread.move] at h

theorem Thread.move_unlock (th th1 : Thread) (s : Store) (h : th.move s = Move.unlock th1) :
    th.pc.inside = true ∧ th1.pc.inside = false := by
  obtain ⟨call, pc, buf, got, ls, ta, rc⟩ := th
  cases call with
  | put t o =>
    cases pc <;> cases o <;> simp [Thread.move, Thread.saveMove] at h <;>
      first
        | (subst h; simp [Pc.inside])
        | (cases hs : s.assign t <;> simp [hs] at h)
  | save o =>
    cases pc <;> cases o <;> simp [Thread.move, Thread.saveMove] at h <;>
      (subst h; simp [Pc.inside])
  | get id =>
    cases pc <;> simp [Thread.move] at h
    subst h
    simp [Pc.inside]
  | list =>
    cases pc <;> simp [Thread.move] at h
    subst h
    simp [Pc.inside]
  | write key files =>
    cases pc <;> simp [Thread.move] at h

theorem Thread.move_run (th th1 : Thread) (s s1 : Store) (h : th.move s = Move.run th1 s1) :
    th.pc.inside = true ∧ th1.pc.inside = true ∧
      (th1.pc = Pc.written → th.pc = Pc.marshalled ∧ s1.tmpFile = th1.buf) ∧
      (th1.pc = Pc.renamed →
        th.pc = Pc.written ∧ s1.snapFile = s.tmpFile ∧ th1.renamedContent = s.tmpFile ∧
          th1.buf = th.buf) := by
  obtain ⟨call, pc, buf, got, ls, ta, rc⟩ := th
  cases call with
  | put t o =>
    cases pc <;> cases o <;> simp [Thread.move, Thread.saveMove] at h <;>
      first
        | (obtain ⟨h1, h2⟩ := h; subst h1; subst h2; simp [Pc.inside])
        | (cases hs : s.assign t <;> simp [hs] at h <;>
            (obtain ⟨h1, h2⟩ := h; subst h1; subst h2; simp [Pc.inside]))
  | save o =>
    cases pc <;> cases o <;> simp [Thread.move, Thread.saveMove] at h <;>
      (obtain ⟨h1, h2⟩ := h; subst h1; subst h2; simp [Pc.inside])
  | get id =>
    cases pc <;> simp [Thread.move] at h
    obtain ⟨h1, h2⟩ := h
    subst h1
    subst h2
    simp [Pc.inside]
  | list =>
    cases pc <;> simp [Thread.move] at h
    obtain ⟨h1, h2⟩ := h
    subst h1
    subst h2
    simp [Pc.inside]
  | write key files =>
    cases pc <;> simp [Thread.move] at h

theorem Thread.move_free (th th1 : Thread) (s s1 : Store) (h : th.move s = Move.free th1 s1) :
    th.pc.inside = false ∧ th1.pc.inside = false ∧ th1.got = th.got ∧ th1.buf = th.buf ∧
      th1.listed = th.listed ∧
      ∃ key files, th.call = Call.write key files ∧ s1 = s.shareFiles key files := by
  obtain ⟨call, pc, buf, got, ls, ta, rc⟩ := th
  cases call with
  | put t o =>
    cases pc <;> cases o <;> simp [Thread.move, Thread.saveMove] at h <;>
      (cases hs : s.assign t <;> simp [hs] at h)
  | save o =>
    cases pc <;> cases o <;> simp [Thread.move, Thread.saveMove] at h
  | get id =>
    cases pc <;> simp [Thread.move] at h
  | list =>
    cases pc <;> simp [Thread.move] at h
  | write key files =>
    cases pc <;> simp [Thread.move] at h
    obtain ⟨h1, h2⟩ := h
    subst h1
    subst h2
    simp only [Pc.inside]
    exact ⟨trivial, trivial, trivial, trivial, trivial, key, files, rfl, rfl⟩

theorem Sys.Serialized_init (store : Store) (calls : Nat → Call) :
    (Sys.init store calls).Serialized :=
  { holderInside := fun _ h => by simp [Sys.init, Thread.new, Pc.inside] at h
    writtenTmp := fun _ h => by simp [Sys.init, Thread.new] at h
    renamedSnap := fun _ h => by simp [Sys.init, Thread.new] at h }

/-- While a goroutine holds the lock, no other goroutine is at a point where it holds it. -/
theorem Sys.Serialized.others_outside (σ : Sys) (hs : σ.Serialized) (tid : Nat)
    (hin : (σ.threads tid).pc.inside = true) (t : Nat) (ht : t ≠ tid) :
    (σ.threads t).pc.inside = false := by
  cases h : (σ.threads t).pc.inside with
  | false => rfl
  | true =>
    have h1 := hs.holderInside t h
    have h2 := hs.holderInside tid hin
    rw [h1] at h2
    exact absurd (Option.some.inj h2) ht

theorem Pc.inside_of_written (pc : Pc) (h : pc = Pc.written ∨ pc = Pc.renamed) :
    pc.inside = true := by
  rcases h with h | h <;> subst h <;> rfl

theorem Sys.Serialized_step (σ σ1 : Sys) (tid : Nat) (hs : σ.Serialized)
    (hstep : σ.step tid = some σ1) : σ1.Serialized := by
  unfold Sys.step at hstep
  cases hm : (σ.threads tid).move σ.store with
  | stuck => simp [hm] at hstep
  | lock th =>
    simp only [hm] at hstep
    obtain ⟨_, hin1, hn2, hn3, _, _, _⟩ := Thread.move_lock _ _ _ hm
    by_cases hfree : σ.holder = none
    · rw [if_pos hfree] at hstep
      cases hstep
      have hout : ∀ t, (σ.threads t).pc.inside = false := by
        intro t
        cases h : (σ.threads t).pc.inside with
        | false => rfl
        | true =>
          have := hs.holderInside t h
          rw [hfree] at this
          exact Option.noConfusion this
      have hother : ∀ t, t ≠ tid → ∀ pc, (pc = Pc.written ∨ pc = Pc.renamed) →
          (σ.threads t).pc ≠ pc := by
        intro t _ pc hpc heq
        have := Pc.inside_of_written _ hpc
        rw [← heq, hout t] at this
        exact Bool.noConfusion this
      refine ⟨?_, ?_, ?_⟩
      · intro t hin
        by_cases ht : t = tid
        · subst ht; rfl
        · simp only [Function.update_noteq ht] at hin
          rw [hout t] at hin
          exact Bool.noConfusion hin
      · intro t hpc
        by_cases ht : t = tid
        · subst ht
          simp only [Function.update_same] at hpc
          exact absurd hpc hn2
        · simp only [Function.update_noteq ht] at hpc
          exact absurd hpc (hother t ht _ (Or.inl rfl))
      · intro t hpc
        by_cases ht : t = tid
        · subst ht
          simp only [Function.update_same] at hpc
          exact absurd hpc hn3
        · simp only [Function.update_noteq ht] at hpc
          exact absurd hpc (hother t ht _ (Or.inr rfl))
    · rw [if_neg hfree] at hstep
      exact Option.noConfusion hstep
  | unlock th =>
    simp only [hm] at hstep
    cases hstep
    obtain ⟨hin, hout1⟩ := Thread.move_unlock _ _ _ hm
    have hout : ∀ t, (Function.update σ.threads tid th t).pc.inside = false := by
      intro t
      by_cases ht : t = tid
      · subst ht
        simp only [Function.update_same]
        exact hout1
      · simp only [Function.update_noteq ht]
        exact hs.others_outside σ tid hin t ht
    have hnone : ∀ t pc, (pc = Pc.written ∨ pc = Pc.renamed) →
        (Function.update σ.threads tid th t).pc ≠ pc := by
      intro t pc hpc heq
      have := Pc.inside_of_written _ hpc
      rw [← heq, hout t] at this
      exact Bool.noConfusion this
    refine ⟨?_, ?_, ?_⟩
    · intro t hin1
      have := hout t
      simp only at hin1
      rw [this] at hin1
      exact Bool.noConfusion hin1
    · intro t hpc
      exact absurd hpc (hnone t _ (Or.inl rfl))
    · intro t hpc
      exact absurd hpc (hnone t _ (Or.inr rfl))
  | run th store =>
    simp only [hm] at hstep
    cases hstep
    obtain ⟨hin, hin1, hwr, hren⟩ := Thread.move_run _ _ _ _ hm
    have hothers : ∀ t, t ≠ tid → ∀ pc, (pc = Pc.written ∨ pc = Pc.renamed) →
        (σ.threads t).pc ≠ pc := by
      intro t ht pc hpc heq
      have := Pc.inside_of_written _ hpc
      rw [← heq, hs.others_outside σ tid hin t ht] at this
      exact Bool.noConfusion this
    refine ⟨?_, ?_, ?_⟩
    · intro t hint
      by_cases ht : t = tid
      · subst ht
        exact hs.holderInside t hin
      · simp only [Function.update_noteq ht] at hint
        rw [hs.others_outside σ tid hin t ht] at hint
        exact Bool.noConfusion hint
    · intro t hpc
      by_cases ht : t = tid
      · subst ht
        simp only [Function.update_same] at hpc ⊢
        exact (hwr hpc).2
      · simp only [Function.update_noteq ht] at hpc
        exact absurd hpc (hothers t ht _ (Or.inl rfl))
    · intro t hpc
      by_cases ht : t = tid
      · subst ht
        simp only [Function.update_same] at hpc ⊢
        obtain ⟨hprev, hsnap, hrc, hbuf⟩ := hren hpc
        show store.snapFile = th.buf ∧ th.renamedContent = th.buf
        rw [hsnap, hrc, hbuf]
        exact ⟨hs.writtenTmp t hprev, hs.writtenTmp t hprev⟩
      · simp only [Function.update_noteq ht] at hpc
        exact absurd hpc (hothers t ht _ (Or.inr rfl))
  | free th store =>
    simp only [hm] at hstep
    cases hstep
    obtain ⟨_, hout1, _, _, _, key, files, _, hstore⟩ := Thread.move_free _ _ _ _ hm
    subst hstore
    have hself : ∀ pc, (pc = Pc.written ∨ pc = Pc.renamed) → th.pc ≠ pc := by
      intro pc hpc heq
      have := Pc.inside_of_written _ hpc
      rw [← heq, hout1] at this
      exact Bool.noConfusion this
    refine ⟨?_, ?_, ?_⟩
    · intro t hint
      by_cases ht : t = tid
      · subst ht
        simp only [Function.update_same] at hint
        rw [hout1] at hint
        exact Bool.noConfusion hint
      · simp only [Function.update_noteq ht] at hint
        exact hs.holderInside t hint
    · intro t hpc
      by_cases ht : t = tid
      · subst ht
        simp only [Function.update_same] at hpc
        exact absurd hpc (hself _ (Or.inl rfl))
      · simp only [Function.update_noteq ht] at hpc ⊢
        exact hs.writtenTmp t hpc
    · intro t hpc
      by_cases ht : t = tid
      · subst ht
        simp only [Function.update_same] at hpc
        exact absurd hpc (hself _ (Or.inr rfl))
      · simp only [Function.update_noteq ht] at hpc ⊢
        exact hs.renamedSnap t hpc

theorem Sys.Serialized_run (schedule : List Nat) :
    ∀ σ : Sys, σ.Serialized → (σ.run schedule).Serialized := by
  induction schedule with
  | nil => intro σ hs; exact hs
  | cons tid rest ih =>
    intro σ hs
    simp only [Sys.run]
    cases hstep : σ.step tid with
    | none => exact ih σ hs
    | some σ1 => exact ih σ1 (Sys.Serialized_step σ σ1 tid hs hstep)

/-- What a goroutine that does not hold the lock can do in one statement: take the lock,
which leaves the store alone, or write through a shared `Files` array; it reads nothing
of the table into a `GetTask` result or into marshalled bytes. -/
theorem Sys.step_outside (σ σ1 : Sys) (tid : Nat) (hstep : σ.step tid = some σ1)
    (hout : (σ.threads tid).pc.inside = false) :
    (σ1.store = σ.store ∨
        ∃ key files, (σ.threads tid).call = Call.write key files ∧
          σ1.store = σ.store.shareFiles key files) ∧
      (σ1.threads tid).got = (σ.threads tid).got ∧
      (σ1.threads tid).listed = (σ.threads tid).listed ∧
      (σ1.threads tid).buf = (σ.threads tid).buf := by
  unfold Sys.step at hstep
  cases hm : (σ.threads tid).move σ.store with
  | stuck => simp [hm] at hstep
  | lock th =>
    simp only [hm] at hstep
    obtain ⟨_, _, _, _, hgot, hbuf, hls⟩ := Thread.move_lock _ _ _ hm
    by_cases hfree : σ.holder = none
    · rw [if_pos hfree] at hstep
      cases hstep
      refine ⟨Or.inl rfl, ?_, ?_, ?_⟩
      · simp only [Function.update_same]
        exact hgot
      · simp only [Function.update_same]
        exact hls
      · simp only [Function.update_same]
        exact hbuf
    · rw [if_neg hfree] at hstep
      exact Option.noConfusion hstep
  | unlock th =>
    have := (Thread.move_unlock _ _ _ hm).1
    rw [hout] at this
    exact Bool.noConfusion this
  | run th store =>
    have := (Thread.move_run _ _ _ _ hm).1
    rw [hout] at this
    exact Bool.noConfusion this
  | free th store =>
    simp only [hm] at hstep
    cases hstep
    obtain ⟨_, _, hgot, hbuf, hls, key, files, hcall, hstore⟩ := Thread.move_free _ _ _ _ hm
    refine ⟨Or.inr ⟨key, files, hcall, hstore⟩, ?_, ?_, ?_⟩
    · simp only [Function.update_same]
      exact hgot
    · simp only [Function.update_same]
      exact hls
    · simp only [Function.update_same]
      exact hbuf

/-- A call of `AddTask` that no other goroutine interleaves with leaves the store that the
method `Store.AddTask` computes. -/
theorem Sys.run_put_alone (s : Store) (calls : Nat → Call) (t : Task) (o : SaveOutcome)
    (hc : calls 0 = Call.put t o) :
    (s.AddTask t o).toOption.map Prod.fst =
      (if s.Tasks = none then none
        else some ((Sys.init s calls).run [0, 0, 0, 0, 0, 0, 0, 0]).store) := by
  cases hT : s.Tasks with
  | none => simp [Store.AddTask, Store.assign, hT, Except.toOption]
  | some m =>
    cases o <;>
      simp [Store.AddTask, Store.assign, hT, Except.toOption, Store.save, Sys.run, Sys.step,
        Sys.init, Thread.new, Thread.move, Thread.saveMove, hc, marshal]

/-- A worker that writes through the shared `Files` array between the temp-file write and
the rename of another goroutine's `save` takes no lock: when the rename has completed the
snapshot holds the bytes that `save` marshalled, and these are no longer the table. -/
theorem snapshot_differs_after_worker_write :
    ((sampleSysWithWorker.run [0, 0, 0, 0, 0, 0, 1, 0]).threads 0).pc = Pc.renamed ∧
      (sampleSysWithWorker.run [0, 0, 0, 0, 0, 0, 1, 0]).holder = some 0 ∧
      ((sampleSysWithWorker.run [0, 0, 0, 0, 0, 0, 1, 0]).threads 1).pc = Pc.returned ∧
      (sampleSysWithWorker.run [0, 0, 0, 0, 0, 0, 1, 0]).store.snapFile =
        some (Content.object [("a", sampleTask)]) ∧
      (sampleSysWithWorker.run [0, 0, 0, 0, 0, 0, 1, 0]).store.snapFile ≠
        some (marshal (sampleSysWithWorker.run [0, 0, 0, 0, 0, 0, 1, 0]).store.Tasks) := by
  decide

/-- C9, as stated, fails: goroutine 0 calls `AddTask` on an empty store; after its map write
and its `Unlock` it has not yet entered `save` and nobody holds the lock; goroutine 1 then
takes the lock and writes another task into the table; the snapshot goroutine 0 writes
afterwards holds both tasks, not the table as its own map write left it. -/
theorem lock_released_between_assign_and_save :
    ((sampleSys.run [0, 0, 0]).threads 0).pc = Pc.released ∧
      (sampleSys.run [0, 0, 0]).holder = none ∧
      (sampleSys.run [0, 0, 0, 1, 1]).store.Tasks =
        some [("a", sampleTask), ("d", sampleDoneTask)] ∧
      ((sampleSys.run [0, 0, 0, 1, 1, 1, 0, 0, 0, 0]).threads 0).tableAfterAssign =
        some (some [("a", sampleTask)]) ∧
      ((sampleSys.run [0, 0, 0, 1, 1, 1, 0, 0, 0, 0]).threads 0).renamedContent =
        some (Content.object [("a", sampleTask), ("d", sampleDoneTask)]) := by
  decide

/-- C9, amended: in every state that calls of `AddTask`, `UpdateTask`, `GetTask`,
`ListTasks` and `save` and unlocked writes of workers through shared `Files` arrays reach,
with any number of goroutines and under any schedule: a goroutine that is inside one of the
two locked sections of an `AddTask` or `UpdateTask` (the map write, or the whole of `save`:
marshal, temp-file write and rename) is the holder of the lock and no other goroutine is
inside a locked section; the only change to the store that a goroutine outside a locked
section makes is a worker's write through a shared `Files` array, and such a goroutine
takes no `GetTask` or `ListTasks` result and marshals nothing; once a `save` has written the
temporary file that file holds the bytes this `save` marshalled, and when its rename has
completed the snapshot file holds those same bytes, which are what the call put in place. -/
theorem store_sections_serialized (store : Store) (calls : Nat → Call) (schedule : List Nat)
    (tid : Nat) :
    ((((Sys.init store calls).run schedule).threads tid).pc.inside = true →
      ((Sys.init store calls).run schedule).holder = some tid ∧
        ∀ t, t ≠ tid → (((Sys.init store calls).run schedule).threads t).pc.inside = false) ∧
    (∀ σ1, ((Sys.init store calls).run schedule).step tid = some σ1 →
      (((Sys.init store calls).run schedule).threads tid).pc.inside = false →
      (σ1.store = ((Sys.init store calls).run schedule).store ∨
          ∃ key files,
            (((Sys.init store calls).run schedule).threads tid).call = Call.write key files ∧
            σ1.store = ((Sys.init store calls).run schedule).store.shareFiles key files) ∧
        (σ1.threads tid).got = (((Sys.init store calls).run schedule).threads tid).got ∧
        (σ1.threads tid).listed =
          (((Sys.init store calls).run schedule).threads tid).listed ∧
        (σ1.threads tid).buf = (((Sys.init store calls).run schedule).threads tid).buf) ∧
    ((((Sys.init store calls).run schedule).threads tid).pc = Pc.written →
      ((Sys.init store calls).run schedule).store.tmpFile =
        (((Sys.init store calls).run schedule).threads tid).buf) ∧
    ((((Sys.init store calls).run schedule).threads tid).pc = Pc.renamed →
      ((Sys.init store calls).run schedule).store.snapFile =
          (((Sys.init store calls).run schedule).threads tid).buf ∧
        (((Sys.init store calls).run schedule).threads tid).renamedContent =
          (((Sys.init store calls).run schedule).threads tid).buf) := by
  have hs := Sys.Serialized_run schedule (Sys.init store calls) (Sys.Serialized_init store calls)
  refine ⟨?_, ?_, ?_, ?_⟩
  · intro hin
    exact ⟨hs.holderInside tid hin, fun t ht => hs.others_outside _ tid hin t ht⟩
  · intro σ1 hstep hout
    exact Sys.step_outside _ σ1 tid hstep hout
  · intro hpc
    exact hs.writtenTmp tid hpc
  · intro hpc
    exact hs.renamedSnap tid hpc

/-- Witness of the amended C9 on a schedule in which a worker writes between the temp-file
write and the rename of goroutine 0: when the rename has completed, goroutine 0 holds the
lock and the snapshot file holds the bytes it marshalled. -/
theorem store_sections_serialized_witness :
    ((sampleSysWithWorker.run [0, 0, 0, 0, 0, 0, 1, 0]).threads 0).pc = Pc.renamed ∧
      (sampleSysWithWorker.run [0, 0, 0, 0, 0, 0, 1, 0]).store.snapFile =
        ((sampleSysWithWorker.run [0, 0, 0, 0, 0, 0, 1, 0]).threads 0).buf ∧
      (sampleSysWithWorker.run [0, 0, 0, 0, 0, 0, 1, 0]).holder = some 0 :=
  ⟨by decide,
    ((store_sections_serialized (sampleStore []) sampleCallsWithWorker
      [0, 0, 0, 0, 0, 0, 1, 0] 0).2.2.2 (by decide)).1,
    ((store_sections_serialized (sampleStore []) sampleCallsWithWorker
      [0, 0, 0, 0, 0, 0, 1, 0] 0).1 (by decide)).1⟩

end GoDownloader
